import Mathlib

/-!
Verification development for the api-data-automator-report pipeline
(`main.py`): a linear fetch → transform → export reporting job built on
`requests` + `pandas`.

Modelling conventions (shallow embedding):
* JSON numbers are modelled as `Int` (no claim depends on fractional
  values); `NaN`/missing cells are the explicit `Value.vnull`.
* `datetime.now()` is modelled as consuming the head of an explicit list
  of clock readings (`S.clock`); every `log` call consumes one reading
  (the code's `log` formats `datetime.now()` into the line), and the
  stamps in `transform_data` / `export_reports` consume further readings
  in source order.
* A log entry is the pair (clock reading, message) — the `[ts] msg`
  rendering is presentation only.
* `pd.DataFrame(raw)` for a list of JSON objects: columns = union of the
  record keys in first-seen order, absent keys become `vnull` (NaN).
* `df[[cols]]` raises `KeyError` iff some requested column is absent
  from the frame's columns (i.e. from every record).
* `df.sort_values(by, ascending=False)` is modelled after pandas
  `nargsort`: NaN keys split off (placed last), the non-NaN block is
  reversed, argsorted with numpy's introspective quicksort
  (`npysort/quicksort` template: median-of-3 quicksort with
  `SMALL_QUICKSORT = 15` insertion-sort cutoff and a `2*msb(n)` depth
  limit falling back to heapsort), the resulting indexer mapped back
  and reversed.  The numpy argsort kernels are transcribed below with a
  fuel parameter (fuel exhaustion returns the state unchanged; the fuel
  supplied is far above what the algorithm consumes).
-/

namespace ADA

/-- A cell value: NaN/None, a JSON string, a JSON number (modelled as
`Int`), a parsed `last_updated` timestamp (carrying its source string),
or the `datetime.now()` object stamped by the pipeline (carrying the
clock reading that produced it). -/
inductive Value where
  | vnull : Value
  | vstr (s : String) : Value
  | vnum (n : Int) : Value
  | vtime (s : String) : Value
  | vstamp (t : Int) : Value
  deriving Repr, DecidableEq

/-- A raw JSON record (one market entry) as an association list. -/
abbrev Rec := List (String × Value)

/-- First value bound to key `c` in record `r` (JSON object lookup). -/
def recGet (r : Rec) (c : String) : Option Value :=
  (r.find? (fun kv => kv.1 == c)).map (fun kv => kv.2)

/-- A pandas DataFrame: a column-name list and rows of cells aligned
with it. -/
structure DF where
  cols : List String
  cells : List (List Value)
  deriving Repr, DecidableEq

/-- Accumulate the keys of one record into a seen-column list, keeping
first-seen order (pandas column inference for a list of dicts). -/
def addKeys (acc : List String) (r : Rec) : List String :=
  r.foldl (fun a kv => if a.contains kv.1 then a else a ++ [kv.1]) acc

/-- Union of record keys in first-seen order: the columns of
`pd.DataFrame(raw)`. -/
def unionKeys (rs : List Rec) : List String :=
  rs.foldl addKeys []

/-- `pd.DataFrame(raw)` (line 48): one row per record, columns =
`unionKeys`, absent keys = NaN. -/
def dfOfRecords (rs : List Rec) : DF :=
  { cols := unionKeys rs
    cells := rs.map (fun r => (unionKeys rs).map (fun c => (recGet r c).getD .vnull)) }

/-- The nine columns selected by `df[[...]]` (lines 53–59). -/
def requiredCols : List String :=
  ["id", "symbol", "name", "current_price", "market_cap",
   "price_change_percentage_24h", "high_24h", "low_24h", "last_updated"]

/-- Pipeline failure classes: `KeyError` from the column projection
(the spec's `SchemaError`), transport/HTTP failures from `requests`
(the spec's `TransportError`), a JSON-decoding failure of the response
body, and a rendering failure in an artifact generator (the spec's
`RenderError`). -/
inductive PErr where
  | keyError (missing : List String) : PErr
  | transport (msg : String) : PErr
  | jsonError : PErr
  | renderError (msg : String) : PErr
  deriving Repr, DecidableEq

/-- Decidable equality of fallible results (for concrete witnesses). -/
instance instDecEqExcept {ε α : Type} [DecidableEq ε] [DecidableEq α] :
    DecidableEq (Except ε α)
  | .error x, .error y =>
    if h : x = y then .isTrue (by rw [h]) else
      .isFalse (fun hc => by injection hc; contradiction)
  | .error _, .ok _ => .isFalse (fun hc => Except.noConfusion hc)
  | .ok _, .error _ => .isFalse (fun hc => Except.noConfusion hc)
  | .ok x, .ok y =>
    if h : x = y then .isTrue (by rw [h]) else
      .isFalse (fun hc => by injection hc; contradiction)

/-- `str(e)` for a caught exception, as interpolated into the `ERROR:`
log line. -/
def errMsg : PErr → String
  | .keyError ms => "KeyError: " ++ String.intercalate ", " ms
  | .transport m => m
  | .jsonError => "response body is not JSON"
  | .renderError m => m

/-- `df[[...]]` on `pd.DataFrame(raw)` (lines 53–59): `KeyError` listing
the requested columns that are absent from the frame, otherwise the
projected frame whose cell at (record, column) is the record's field or
NaN. -/
def projectRecs (recs : List Rec) : Except PErr DF :=
  if (requiredCols.filter (fun c => !((unionKeys recs).contains c))).isEmpty then
    .ok { cols := requiredCols
          cells := recs.map (fun r => requiredCols.map (fun c => (recGet r c).getD .vnull)) }
  else
    .error (.keyError (requiredCols.filter (fun c => !((unionKeys recs).contains c))))

/-- Upper-case one character (ASCII range; provider identifiers and
symbols are ASCII). -/
def upChar (c : Char) : Char :=
  if 'a' ≤ c ∧ c ≤ 'z' then Char.ofNat (c.toNat - 32) else c

/-- `str.upper()` (ASCII range). -/
def upStr (s : String) : String := String.mk (s.data.map upChar)

/-- `.str.upper()` on one cell: upper-cases strings; NaN and non-string
cells become NaN (pandas `.str` accessor semantics). -/
def upperVal : Value → Value
  | .vstr s => .vstr (upStr s)
  | _ => .vnull

/-- `pd.to_datetime` on one cell: parses a string into a timestamp
(modelled as carrying the source string), passes NaN through as NaT,
interprets a bare number as an epoch instant, leaves other values as
is.  No claim exercises an unparseable-string failure, so parsing is
modelled as total. -/
def parseTimeVal : Value → Value
  | .vstr s => .vtime s
  | .vnull => .vnull
  | .vnum n => .vstamp n
  | v => v

/-- Column assignment `df[c] = df[c].map g` style update: rewrite the
cell at column `c` in every row.  Both uses in the pipeline target
columns that exist after the projection; a missing column leaves the
frame unchanged (unreachable in the pipeline). -/
def mapCol (df : DF) (c : String) (g : Value → Value) : DF :=
  match df.cols.findIdx? (fun x => x == c) with
  | none => df
  | some i => { df with cells := df.cells.map (fun row => row.set i (g (row.getD i .vnull))) }

/-- `df[c] = scalar` for a new column `c`: appended at the end of the
column order, the scalar broadcast to every row (line 66). -/
def addCol (df : DF) (c : String) (v : Value) : DF :=
  { cols := df.cols ++ [c], cells := df.cells.map (fun row => row ++ [v]) }

/-! ### Decimal rendering and parsing of integers

Used to model the cell strings written by `to_csv` and the numeric
inference applied by a `read_csv` re-parse. -/

/-- Base-10 digits, least significant first, with structural fuel
(`fuel ≥ n` always suffices). -/
def revDigitsAux : Nat → Nat → List Nat
  | 0, n => [n % 10]
  | f + 1, n => if n < 10 then [n] else (n % 10) :: revDigitsAux f (n / 10)

/-- Base-10 digits of `n`, least significant first (always nonempty). -/
def natToRevDigits (n : Nat) : List Nat :=
  revDigitsAux n n

/-- Value of a least-significant-first digit list. -/
def digitsToNatRev : List Nat → Nat
  | [] => 0
  | d :: ds => d + 10 * digitsToNatRev ds

/-- Value of a most-significant-first digit list. -/
def valOfDigits (l : List Nat) : Nat :=
  l.foldl (fun a d => 10 * a + d) 0

/-- Character for a decimal digit. -/
def digitCh (d : Nat) : Char := Char.ofNat (48 + d)

/-- Digit value of a character. -/
def charDigit (c : Char) : Nat := c.toNat - 48

/-- Is `c` a decimal digit character? -/
def isDigitCh (c : Char) : Bool := 48 ≤ c.toNat && c.toNat ≤ 57

/-- Decimal rendering of a natural number. -/
def natStr (n : Nat) : String :=
  String.mk ((natToRevDigits n).reverse.map digitCh)

/-- Decimal rendering of an integer (as `str`/`to_csv` would write the
cell). -/
def renderInt (n : Int) : String :=
  if n < 0 then String.mk ('-' :: (natStr n.natAbs).data) else natStr n.toNat

/-- Numeric inference of a CSV field: an optional minus sign followed by
one or more digits parses as an integer, anything else does not. -/
def parseIntStr (s : String) : Option Int :=
  match s.data with
  | [] => none
  | c :: cs =>
    if c = '-' then
      if cs ≠ [] ∧ cs.all isDigitCh then
        some (-((valOfDigits (cs.map charDigit) : Nat) : Int))
      else none
    else
      if (c :: cs).all isDigitCh then
        some (((valOfDigits ((c :: cs).map charDigit) : Nat) : Int))
      else none

/-- The run-timestamp token `datetime.now().strftime("%Y-%m-%d_%H-%M-%S")`
embedded in artifact filenames (line 116), modelled as an injective
rendering of the clock reading. -/
def fmtTs (t : Int) : String := String.mk ('t' :: 's' :: '-' :: (renderInt t).data)

/-- The string a `datetime` cell renders to in CSV output, modelled as
an injective rendering of the clock reading. -/
def fmtDT (t : Int) : String := String.mk ('d' :: 't' :: ':' :: (renderInt t).data)

/-! ### numpy introspective argsort (`npysort/quicksort` template)

`v` is the fixed key array, `t` the index array being permuted
(`tosort`, initially `range n`).  Positions out of range read key `0`
and swaps out of range are the identity — the real algorithm never
goes out of range; the guards only keep the Lean functions total. -/

/-- Key at position `p` of the index array: `v[t[p]]`. -/
def keyAt (v : List Int) (t : List Nat) (p : Nat) : Int :=
  v.getD (t.getD p 0) 0

/-- `INTP_SWAP(t[i], t[j])`. -/
def swapT (t : List Nat) (i j : Nat) : List Nat :=
  if i < t.length ∧ j < t.length then (t.set i (t.getD j 0)).set j (t.getD i 0) else t

/-- Insert index `i` into an (ascending, stable) sorted index list:
`i` is placed before the first index whose key is strictly greater,
i.e. after every index with key ≤ key(i).  This is the net effect of
the shift-based insertion step of the C insertion sort. -/
def insIdx (v : List Int) (i : Nat) : List Nat → List Nat
  | [] => [i]
  | j :: rest => if v.getD i 0 < v.getD j 0 then i :: j :: rest else j :: insIdx v i rest

/-- Stable ascending insertion argsort of an index segment, processing
indices left to right (the C insertion sort over `t[pl..pr]`). -/
def insSortSeg (v : List Int) (seg : List Nat) : List Nat :=
  seg.foldl (fun acc j => insIdx v j acc) []

/-- The final insertion-sort pass over `t[pl..pr]` (in-range segment
rewritten, everything else untouched). -/
def insertionSortRange (v : List Int) (t : List Nat) (pl pr : Nat) : List Nat :=
  if pl ≤ pr ∧ pr < t.length then
    t.take pl ++ insSortSeg v ((t.drop pl).take (pr + 1 - pl)) ++ t.drop (pr + 1)
  else t

/-- `do ++pi; while (v[*pi] < vp);` — first position ≥ `p` whose key is
not below the pivot. -/
def scanUp (v : List Int) (t : List Nat) (vp : Int) : Nat → Nat → Nat
  | 0, p => p
  | f + 1, p => if keyAt v t p < vp then scanUp v t vp f (p + 1) else p

/-- `do --pj; while (vp < v[*pj]);` — first position ≤ `p` (scanning
down) whose key is not above the pivot. -/
def scanDown (v : List Int) (t : List Nat) (vp : Int) : Nat → Nat → Nat
  | 0, p => p
  | f + 1, p => if vp < keyAt v t p then scanDown v t vp f (p - 1) else p

/-- The partition exchange loop: scan up from `pi`, down from `pj`,
swap and repeat until the scans cross; returns the final array and
`pi`. -/
def partScan (v : List Int) : Nat → List Nat → Int → Nat → Nat → List Nat × Nat
  | 0, t, _, pi, _ => (t, pi)
  | f + 1, t, vp, pi, pj =>
    let pi' := scanUp v t vp f (pi + 1)
    let pj' := scanDown v t vp f (pj - 1)
    if pi' ≥ pj' then (t, pi')
    else partScan v f (swapT t pi' pj') vp pi' pj'

/-- One quicksort partition of `t[pl..pr]`: median-of-3 pivot
selection (with its conditioning swaps), pivot parked at `pr-1`,
exchange scans, pivot swapped into its final slot `pi`. -/
def doPartition (v : List Int) (f : Nat) (t : List Nat) (pl pr : Nat) : List Nat × Nat :=
  let pm := pl + (pr - pl) / 2
  let t1 := if keyAt v t pm < keyAt v t pl then swapT t pm pl else t
  let t2 := if keyAt v t1 pr < keyAt v t1 pm then swapT t1 pr pm else t1
  let t3 := if keyAt v t2 pm < keyAt v t2 pl then swapT t2 pm pl else t2
  let vp := keyAt v t3 pm
  let t4 := swapT t3 pm (pr - 1)
  let ps := partScan v f t4 vp pl (pr - 1)
  (swapT ps.1 ps.2 (pr - 1), ps.2)

/-- `while ((pr - pl) > SMALL_QUICKSORT)` with `SMALL_QUICKSORT = 15`:
partition, push the larger side on the stack, continue on the smaller
side.  Returns the array, the residual small range and the stack. -/
def qsWhile (v : List Int) :
    Nat → List Nat → Nat → Nat → List (Nat × Nat) → List Nat × Nat × Nat × List (Nat × Nat)
  | 0, t, pl, pr, st => (t, pl, pr, st)
  | f + 1, t, pl, pr, st =>
    if pr - pl > 15 then
      let dp := doPartition v f t pl pr
      if dp.2 - pl < pr - dp.2 then qsWhile v f dp.1 pl (dp.2 - 1) ((dp.2 + 1, pr) :: st)
      else qsWhile v f dp.1 (dp.2 + 1) pr ((pl, dp.2 - 1) :: st)
    else (t, pl, pr, st)

/-! The heapsort fallback (`aheapsort`) works 1-indexed on the range
starting at `pl`.  numpy's sift moves a hole down the max-child path
and drops the saved element at the end; swapping the sifted element
down the same path yields the same final array (the comparisons are
against the sifted element, which the swaps keep at the current
position), so the sift is transcribed with swaps. -/

/-- Key of 1-indexed heap slot `k` of the range starting at `pl`. -/
def hsKey (v : List Int) (t : List Nat) (pl k : Nat) : Int :=
  keyAt v t (pl + k - 1)

/-- Swap of 1-indexed heap slots. -/
def hsSwap (t : List Nat) (pl i j : Nat) : List Nat :=
  swapT t (pl + i - 1) (pl + j - 1)

/-- Sift the element at heap slot `i` down a heap of size `n`. -/
def hsSift (v : List Int) : Nat → List Nat → Nat → Nat → Nat → List Nat
  | 0, t, _, _, _ => t
  | f + 1, t, pl, n, i =>
    let j0 := 2 * i
    if j0 ≤ n then
      let j := if j0 < n ∧ hsKey v t pl j0 < hsKey v t pl (j0 + 1) then j0 + 1 else j0
      if hsKey v t pl i < hsKey v t pl j then hsSift v f (hsSwap t pl i j) pl n j
      else t
    else t

/-- Heap construction: sift slots `n/2` down to `1`. -/
def hsBuild (v : List Int) : Nat → List Nat → Nat → Nat → Nat → List Nat
  | 0, t, _, _, _ => t
  | f + 1, t, pl, n, l =>
    if l = 0 then t else hsBuild v f (hsSift v f t pl n l) pl n (l - 1)

/-- Heap extraction: swap the max to the end and re-sift, for sizes
`m` down to `2`. -/
def hsExtract (v : List Int) : Nat → List Nat → Nat → Nat → List Nat
  | 0, t, _, _ => t
  | f + 1, t, pl, m =>
    if m ≤ 1 then t
    else hsExtract v f (hsSift v f (hsSwap t pl 1 m) pl (m - 1) 1) pl (m - 1)

/-- `aheapsort` over `t[pl..pr]`. -/
def heapsortRange (v : List Int) (f : Nat) (t : List Nat) (pl pr : Nat) : List Nat :=
  let n := pr + 1 - pl
  hsExtract v f (hsBuild v f t pl n (n / 2)) pl n

/-- The outer introsort loop: on depth exhaustion heapsort the current
range, otherwise quicksort it down to small ranges and insertion-sort
the residue; then pop the next range off the stack. -/
def qsOuter (v : List Int) :
    Nat → List Nat → Nat → Nat → Int → List (Nat × Nat) → List Nat
  | 0, t, _, _, _, _ => t
  | f + 1, t, pl, pr, depth, st =>
    if depth < 0 then
      let t1 := heapsortRange v f t pl pr
      match st with
      | [] => t1
      | (pl', pr') :: rest => qsOuter v f t1 pl' pr' (depth - 1) rest
    else
      let q := qsWhile v f t pl pr st
      let t2 := insertionSortRange v q.1 q.2.1 q.2.2.1
      match q.2.2.2 with
      | [] => t2
      | (pl', pr') :: rest => qsOuter v f t2 pl' pr' (depth - 1) rest

/-- Fuel comfortably above what introsort consumes on `n` keys. -/
def fuelFor (n : Nat) : Nat := n * n + 64

/-- `npy_get_msb`: position of the most significant set bit (floor
log2), with structural fuel. -/
def msbAux : Nat → Nat → Nat
  | 0, _ => 0
  | f + 1, n => if 2 ≤ n then msbAux f (n / 2) + 1 else 0

/-- `npy_get_msb n` (= 0 for `n ≤ 1`). -/
def npyMsb (n : Nat) : Nat := msbAux n n

/-- `np.argsort(v, kind='quicksort')`: the permutation of `range n`
produced by the introspective sort, depth limit `2 * msb n`. -/
def introArgsort (v : List Int) : List Nat :=
  qsOuter v (fuelFor v.length) (List.range v.length) 0 (v.length - 1)
    (2 * (npyMsb v.length : Int)) []

/-- pandas `nargsort(keys, kind='quicksort', ascending=False,
na_position='last')`: NaN keys split off and appended last; the
non-NaN block is reversed, argsorted ascending, mapped back through
the original positions and reversed. -/
def nargsortDesc (keys : List (Option Int)) : List Nat :=
  let idx := List.range keys.length
  let nonNanIdx := idx.filter (fun i => (keys.getD i none).isSome)
  let nanIdx := idx.filter (fun i => !(keys.getD i none).isSome)
  let nn := nonNanIdx.reverse
  let vals := nn.map (fun i => (keys.getD i none).getD 0)
  let sorted := introArgsort vals
  (sorted.map (fun k => nn.getD k 0)).reverse ++ nanIdx

/-- Sort key of a `market_cap` cell: a number is a real key, NaN is
masked out.  (A non-numeric, non-null cell cannot arise for
`market_cap` in any pipeline run considered by the claims; it is
conservatively masked with the NaNs.) -/
def toKey : Value → Option Int
  | .vnum n => some n
  | _ => none

/-- The `market_cap` column of a frame as sort keys. -/
def capsOfDF (df : DF) : List (Option Int) :=
  match df.cols.findIdx? (fun x => x == "market_cap") with
  | some i => df.cells.map (fun row => toKey (row.getD i .vnull))
  | none => []

/-- `df.sort_values(by="market_cap", ascending=False).reset_index(drop=True)`
(line 69): reorder the rows by the pandas descending argsort indexer. -/
def sortByCapDesc (df : DF) : DF :=
  { cols := df.cols
    cells := (nargsortDesc (capsOfDF df)).map (fun i => df.cells.getD i []) }

/-! ### Pipeline constants (lines 13–19) -/

def API_URL : String := "https://api.coingecko.com/api/v3/coins/markets"

def COINS : List String := ["bitcoin", "ethereum", "solana", "dogecoin"]

def VS_CURRENCY : String := "usd"

def OUTPUT_DIR : String := "outputs"

def LOG_DIR : String := "logs"

/-- A query-parameter value: string, integer, or boolean. -/
inductive PVal where
  | pstr (s : String) : PVal
  | pnat (n : Nat) : PVal
  | pbool (b : Bool) : PVal
  deriving Repr, DecidableEq

/-- The query parameters built by `fetch_data` (lines 32–39). -/
def fetchParams : List (String × PVal) :=
  [("vs_currency", .pstr VS_CURRENCY),
   ("ids", .pstr (String.intercalate "," COINS)),
   ("order", .pstr "market_cap_desc"),
   ("per_page", .pnat COINS.length),
   ("page", .pnat 1),
   ("sparkline", .pbool false)]

/-- The `timeout=15` argument of the single GET (line 42). -/
def REQUEST_TIMEOUT : Nat := 15

/-! ### Effectful state: clock and run log -/

/-- Mutable run state: the remaining clock readings and the run log
(append order = chronological order). -/
structure S where
  clock : List Int
  logs : List (Int × String)
  deriving Repr, DecidableEq

/-- `datetime.now()`: consume the next clock reading. -/
def now (s : S) : Int × S :=
  (s.clock.headD 0, { s with clock := s.clock.tail })

/-- `log(msg)` (lines 24–29): format the current time with the message
and append the line to the run log (and stdout). -/
def logMsg (m : String) (s : S) : S :=
  let (t, s1) := now s
  { s1 with logs := s1.logs ++ [(t, m)] }

/-- The response of the one `requests.get`, when no transport exception
occurs: an HTTP status and a body that is either a JSON record list or
undecodable. -/
structure HttpResp where
  status : Nat
  body : Option (List Rec)
  deriving Repr, DecidableEq

/-- Everything external a run consumes: the clock readings, the HTTP
outcome (`.error` = transport exception from `requests.get`), and
whether the PDF renderer raises (the external render collaborators'
failure channel). -/
structure World where
  clock : List Int
  http : Except String HttpResp
  pdfFail : Option String
  deriving Repr

/-- The pure outcome of the GET + `raise_for_status()` + `r.json()`
sequence (lines 42–44): a transport exception propagates;
`raise_for_status` raises exactly on 4xx/5xx statuses; otherwise the
body is JSON-decoded. -/
def fetchOutcome (w : World) : Except PErr (List Rec) :=
  match w.http with
  | .error m => .error (.transport m)
  | .ok resp =>
    if 400 ≤ resp.status ∧ resp.status < 600 then
      .error (.transport (String.mk ('H' :: 'T' :: 'T' :: 'P' :: ' ' :: (renderInt resp.status).data)))
    else
      match resp.body with
      | none => .error .jsonError
      | some recs => .ok recs

/-- `fetch_data()` (lines 31–44): one log line, then the request. -/
def fetchData (w : World) (s : S) : Except PErr (List Rec) × S :=
  let s1 := logMsg ("Fetching API data...") s
  (fetchOutcome w, s1)

/-- `transform_data(raw)` (lines 46–71), in source order: log, build
`df_raw`, project onto `requiredCols` (KeyError here aborts before the
stamp's clock read), upper-case `symbol`, parse `last_updated`, read
`datetime.now()` once and broadcast it as `report_generated_at`, sort
by `market_cap` descending.  Returns `(df_raw, df)` on success. -/
def transformData (s : S) (recs : List Rec) : Except PErr (DF × DF) × S :=
  let s1 := logMsg ("Transforming data...") s
  match projectRecs recs with
  | .error e => (.error e, s1)
  | .ok df1 =>
    let df2 := mapCol df1 "symbol" upperVal
    let df3 := mapCol df2 "last_updated" parseTimeVal
    let (tstamp, s2) := now s1
    let df4 := addCol df3 "report_generated_at" (.vstamp tstamp)
    (.ok (dfOfRecords recs, sortByCapDesc df4), s2)

/-! ### Export -/

/-- Rendering of one cell by `to_csv`. -/
def renderCell : Value → String
  | .vnull => ""
  | .vstr s => s
  | .vnum n => renderInt n
  | .vtime s => s
  | .vstamp t => fmtDT t

/-- `df.to_csv(path, index=False)` content: a header row of column
names followed by one rendered row per frame row, no index column.
(The comma/quoting layer of the file format is orthogonal to the
claims and left at cell granularity.) -/
def csvRender (df : DF) : List (List String) :=
  df.cols :: df.cells.map (fun row => row.map renderCell)

/-- The default `read_csv` missing-value tokens. -/
def naTokens : List String :=
  ["", "#N/A", "#N/A N/A", "#NA", "-1.#IND", "-1.#QNAN", "-NaN", "-nan",
   "1.#IND", "1.#QNAN", "<NA>", "N/A", "NA", "NULL", "NaN", "None", "n/a",
   "nan", "null"]

/-- `read_csv` inference on one field: NA tokens become NaN, numeric
literals become numbers, everything else stays a string. -/
def parseCell (f : String) : Value :=
  if naTokens.contains f then .vnull
  else
    match parseIntStr f with
    | some n => .vnum n
    | none => .vstr f

/-- Re-parsing the CSV content with `read_csv`: first row is the
header, every following field runs through NA/numeric inference. -/
def csvParse (tbl : List (List String)) : DF :=
  match tbl with
  | [] => { cols := [], cells := [] }
  | h :: rows => { cols := h, cells := rows.map (fun row => row.map parseCell) }

/-- Canonical timestamp rendering for the round-trip comparison:
timestamp cells compare through their canonical string form, other
cells through their value. -/
def canonCell : Value → Value
  | .vtime s => .vstr s
  | .vstamp t => .vstr (fmtDT t)
  | v => v

/-- A frame with all timestamp cells canonicalized to strings. -/
def canonDF (df : DF) : DF :=
  { df with cells := df.cells.map (fun row => row.map canonCell) }

/-- What an artifact holds, at the granularity the claims need: the
CSV carries its table, the HTML and PDF carry the `datetime.now()`
reading their generated-at line embeds, the rest are opaque rasters /
serializations. -/
inductive ArtContent where
  | csvC (tbl : List (List String)) : ArtContent
  | jsonC : ArtContent
  | htmlC (t : Int) : ArtContent
  | pdfC (t : Int) : ArtContent
  | chartC : ArtContent
  | pngC (preview : List (List Value)) : ArtContent
  deriving Repr, DecidableEq

/-- A written output file: its path and content. -/
abbrev Artifact := String × ArtContent

/-- `export_reports(df_raw, df_cleaned)` (lines 115–175): capture the
run-timestamp token once at entry, then for each artifact log a line
and write the file; the HTML body and `generate_pdf` each read
`datetime.now()` again for their "Generated:" line; a PDF-renderer
exception aborts the export leaving the already-written files.
Returns the outcome, the final state and the files written. -/
def exportReports (w : World) (dfr dfc : DF) (s : S) :
    Except PErr Unit × S × List Artifact :=
  let (ts, s0) := now s
  let tok := fmtTs ts
  let csvP := OUTPUT_DIR ++ "/report_" ++ tok ++ ".csv"
  let htmlP := OUTPUT_DIR ++ "/report_" ++ tok ++ ".html"
  let jsonP := OUTPUT_DIR ++ "/report_" ++ tok ++ ".json"
  let pdfP := OUTPUT_DIR ++ "/report_" ++ tok ++ ".pdf"
  let chartP := OUTPUT_DIR ++ "/chart_" ++ tok ++ ".png"
  let beforeP := OUTPUT_DIR ++ "/before_data_" ++ tok ++ ".png"
  let afterP := OUTPUT_DIR ++ "/after_data_" ++ tok ++ ".png"
  let csvImgP := OUTPUT_DIR ++ "/csv_preview_" ++ tok ++ ".png"
  let s1 := logMsg ("Saving CSV: " ++ csvP) s0
  let a1 : Artifact := (csvP, .csvC (csvRender dfc))
  let s2 := logMsg ("Saving JSON: " ++ jsonP) s1
  let a2 : Artifact := (jsonP, .jsonC)
  let s3 := logMsg ("Saving HTML: " ++ htmlP) s2
  let (th, s4) := now s3
  let a3 : Artifact := (htmlP, .htmlC th)
  let s5 := logMsg ("Generating PDF: " ++ pdfP) s4
  match w.pdfFail with
  | some m => (.error (.renderError m), s5, [a1, a2, a3])
  | none =>
    let (tp, s6) := now s5
    let a4 : Artifact := (pdfP, .pdfC tp)
    let s7 := logMsg ("Generating chart: " ++ chartP) s6
    let a5 : Artifact := (chartP, .chartC)
    let s8 := logMsg ("Generating before data screenshot: " ++ beforeP) s7
    let a6 : Artifact := (beforeP, .pngC (dfr.cells.take 10))
    let s9 := logMsg ("Generating after data screenshot: " ++ afterP) s8
    let a7 : Artifact := (afterP, .pngC (dfc.cells.take 10))
    let s10 := logMsg ("Generating CSV preview screenshot: " ++ csvImgP) s9
    let a8 : Artifact := (csvImgP, .pngC (dfc.cells.take 10))
    let s11 := logMsg ("Export complete.") s10
    (.ok (), s11, [a1, a2, a3, a4, a5, a6, a7, a8])

/-- `main()` (lines 177–184): run the three stages in sequence inside
one `try`; any stage failure is logged once as `ERROR: <message>` and
the function returns normally.  Returns the final state and the
artifacts written. -/
def mainRun (w : World) : S × List Artifact :=
  let s0 : S := { clock := w.clock, logs := [] }
  match fetchData w s0 with
  | (.error e, s) => (logMsg ("ERROR: " ++ errMsg e) s, [])
  | (.ok recs, s) =>
    match transformData s recs with
    | (.error e, s1) => (logMsg ("ERROR: " ++ errMsg e) s1, [])
    | (.ok (dfr, dfc), s1) =>
      match exportReports w dfr dfc s1 with
      | (.error e, s2, arts) => (logMsg ("ERROR: " ++ errMsg e) s2, arts)
      | (.ok _, s2, arts) => (logMsg ("Run finished successfully.") s2, arts)

/-- Which stage (if any) of the run on world `w` raises: fetch first,
then the transform's column projection, then the PDF renderer. -/
def stageOutcome (w : World) : Option String :=
  match fetchOutcome w with
  | .error e => some (errMsg e)
  | .ok recs =>
    match projectRecs recs with
    | .error e => some (errMsg e)
    | .ok _ =>
      match w.pdfFail with
      | some m => some (errMsg (.renderError m))
      | none => none

/-- Is a log entry an `ERROR: <message>` line? -/
def isErrEntry (e : Int × String) : Bool :=
  decide (e.2.data.take 7 = ['E', 'R', 'R', 'O', 'R', ':', ' '])

/-! ### Derived per-record view of the cleaned table

After the projection succeeds, the cleaned (pre-sort) frame's row for
record `r`, stamped `t`, is exactly this list — proved below and used
to state the claims. -/

/-- The cleaned row derived from one record: projected fields in schema
order, symbol upper-cased, `last_updated` parsed, generation stamp
appended. -/
def cleanRowOf (r : Rec) (t : Int) : List Value :=
  [(recGet r "id").getD .vnull,
   upperVal ((recGet r "symbol").getD .vnull),
   (recGet r "name").getD .vnull,
   (recGet r "current_price").getD .vnull,
   (recGet r "market_cap").getD .vnull,
   (recGet r "price_change_percentage_24h").getD .vnull,
   (recGet r "high_24h").getD .vnull,
   (recGet r "low_24h").getD .vnull,
   parseTimeVal ((recGet r "last_updated").getD .vnull),
   .vstamp t]

/-- The `market_cap` sort keys as read off the input records. -/
def capKeyOf (recs : List Rec) : List (Option Int) :=
  recs.map (fun r => toKey ((recGet r "market_cap").getD .vnull))

/-- The numeric key at input position `i` (all-numeric inputs). -/
def capN (keys : List (Option Int)) (i : Nat) : Int :=
  (keys.getD i none).getD 0

/-- Stable-descending order on input positions: position `a` precedes
position `b` when `a`'s key is larger, or the keys tie and `a` is the
earlier input position. -/
def SD (keys : List (Option Int)) (a b : Nat) : Prop :=
  capN keys b < capN keys a ∨ (capN keys a = capN keys b ∧ a < b)

instance (keys : List (Option Int)) (a b : Nat) : Decidable (SD keys a b) := by
  unfold SD; infer_instance

/-- The `market_cap` number of a cleaned row (0 for a non-numeric
cell; the claims only use it where the cell is numeric). -/
def capCellN (row : List Value) : Int :=
  match row.getD 4 .vnull with
  | .vnum n => n
  | _ => 0

/-- Does the record carry all nine required fields, with a string
symbol? (The shape every record of a valid provider response has.) -/
def validRecB (r : Rec) : Bool :=
  requiredCols.all (fun c => (recGet r c).isSome) &&
    (match recGet r "symbol" with
     | some (.vstr _) => true
     | _ => false)

/-- Are all cells of the frame round-trip safe: string cells are not
NA tokens and not numeric literals?  (Numeric, missing and timestamp
cells always round-trip.) -/
def safeCellB : Value → Bool
  | .vstr s => !(naTokens.contains s) && (parseIntStr s).isNone
  | .vtime s => !(naTokens.contains s) && (parseIntStr s).isNone
  | _ => true

/-! ### Concrete fixtures for witnesses and counterexamples -/

/-- A complete market record with the given id, symbol and market cap. -/
def mkRec (idS sym : String) (cap : Int) : Rec :=
  [("id", .vstr idS), ("symbol", .vstr sym), ("name", .vstr idS),
   ("current_price", .vnum 7), ("market_cap", .vnum cap),
   ("price_change_percentage_24h", .vnum 1), ("high_24h", .vnum 8),
   ("low_24h", .vnum 6), ("last_updated", .vstr "2024-01-02T03:04:05Z")]

/-- The spec's §8 scenario: caps 90 / 5 / 500 / 1 for
bitcoin / ethereum / solana / dogecoin. -/
def recs4 : List Rec :=
  [mkRec "bitcoin" "btc" 90, mkRec "ethereum" "eth" 5,
   mkRec "solana" "sol" 500, mkRec "dogecoin" "doge" 1]

/-- 17 records with identical market caps and distinct ids. -/
def recs17 : List Rec :=
  (List.range 17).map (fun i => mkRec (String.mk ('c' :: (renderInt i).data)) "x" 5)

/-- A default frame pair for extracting transform results. -/
def dfDflt : DF × DF := ({ cols := [], cells := [] }, { cols := [], cells := [] })

/-- Transform of the §8 scenario under the clock `[0, 1]`. -/
def tr4 : Except PErr (DF × DF) × S := transformData { clock := [0, 1], logs := [] } recs4

/-- Raw frame of the §8 scenario transform. -/
def dfr4 : DF := (tr4.1.toOption.getD dfDflt).1

/-- Cleaned frame of the §8 scenario transform. -/
def dfc4 : DF := (tr4.1.toOption.getD dfDflt).2

/-- Transform of the 17-equal-caps input under the clock `[0, 1]`. -/
def tr17 : Except PErr (DF × DF) × S := transformData { clock := [0, 1], logs := [] } recs17

/-- Id cells of the 17-equal-caps transform output, in row order. -/
def ids17out : List Value :=
  (tr17.1.toOption.getD dfDflt).2.cells.map (fun row => row.getD 0 .vnull)

/-- A happy-path world: clock readings 1, 2, 3, …, a 200 response with
one complete record, no render failure. -/
def w0 : World :=
  { clock := [1, 2, 3, 4, 5, 6, 7, 8, 9, 10, 11, 12, 13, 14, 15, 16]
    http := .ok { status := 200, body := some [mkRec "bitcoin" "btc" 90] }
    pdfFail := none }

/-- The run state after the fetch stage of `w0`. -/
def s1w0 : S := (fetchData w0 { clock := w0.clock, logs := [] }).2

/-- A world whose response returns records that all miss the `id`
column. -/
def wMissing : World :=
  { clock := [1, 2, 3, 4]
    http := .ok { status := 200, body := some [[("symbol", .vstr "btc"), ("market_cap", .vnum 5)]] }
    pdfFail := none }

/-- A world whose GET raises a timeout exception. -/
def wTimeout : World :=
  { clock := [1, 2], http := .error "timed out", pdfFail := none }

/-- A world answering HTTP 304 (not 2xx, not 4xx/5xx) with a JSON
body. -/
def w304 : World :=
  { clock := [1, 2], http := .ok { status := 304, body := some [] }, pdfFail := none }

/-- A ReportRow frame whose symbol cell is the string `"NA"` (a
plausible upper-cased ticker), which `read_csv` re-parses as NaN. -/
def dfNA : DF :=
  { cols := requiredCols ++ ["report_generated_at"]
    cells := [[.vstr "bitcoin", .vstr "NA", .vstr "Bitcoin", .vnum 7, .vnum 90,
               .vnum 1, .vnum 8, .vnum 6, .vtime "2024-01-02T03:04:05Z", .vstamp 3]] }

/-- Two records covering every required column between them, each
missing some fields the other has. -/
def recsPartial : List Rec :=
  [mkRec "bitcoin" "btc" 90,
   [("id", .vstr "mystery"), ("symbol", .vstr "myst")]]

/-! ## Lemmas -/

theorem take7_append (a b : String) (h : 7 ≤ a.data.length) :
    (a ++ b).data.take 7 = a.data.take 7 := by
  rw [String.data_append, List.take_append_eq_append_take,
    Nat.sub_eq_zero_of_le h, List.take_zero, List.append_nil]

theorem isErrEntry_err (t : Int) (m : String) : isErrEntry (t, "ERROR: " ++ m) = true := by
  unfold isErrEntry
  rw [show ("ERROR: " ++ m).data.take 7 = "ERROR: ".data.take 7 from
    take7_append _ _ (by decide)]
  decide

theorem isErrEntry_append (t : Int) (a b : String) (h7 : 7 ≤ a.data.length)
    (hne : a.data.take 7 ≠ ['E', 'R', 'R', 'O', 'R', ':', ' ']) :
    isErrEntry (t, a ++ b) = false := by
  unfold isErrEntry
  rw [take7_append _ _ h7]
  simp [hne]

/-- C7 (confirmed): `transform_data` hands back the original raw table
unchanged — the first component of every successful transform is
exactly `pd.DataFrame(raw)` of the input records; the cleaned table is
built from a copy, so producing it cannot mutate the raw records (the
embedding is pure, and the returned raw frame is the input's frame). -/
theorem transform_preserves_raw (s : S) (recs : List Rec) (p : DF × DF) (s' : S)
    (h : transformData s recs = (.ok p, s')) : p.1 = dfOfRecords recs := by
  unfold transformData at h
  cases hp : projectRecs recs with
  | error e =>
    rw [hp] at h
    simp at h
  | ok df1 =>
    rw [hp] at h
    simp only [Prod.mk.injEq, Except.ok.injEq] at h
    rw [← h.1]

/-- Witness for C7 at the §8 scenario. -/
theorem transform_preserves_raw_wit :
    transformData { clock := [0, 1], logs := [] } recs4 = (.ok (dfr4, dfc4), tr4.2) ∧
      (dfr4, dfc4).1 = dfOfRecords recs4 :=
  ⟨by decide,
    transform_preserves_raw { clock := [0, 1], logs := [] } recs4 (dfr4, dfc4) tr4.2 (by decide)⟩

/-- C8 (corrected): every fetch builds exactly the claimed query
parameters (quote currency, comma-joined ids, market-cap-descending
order, page size = coin count, page 1, sparkline off), uses the fixed
15-second timeout, emits exactly one log entry before the request is
examined, propagates transport exceptions, and fails with a
transport-class error on 4xx/5xx statuses — but `raise_for_status`
ignores other non-2xx statuses (e.g. 304), so those do **not** fail
with a transport error; a decodable body is then returned as-is. -/
theorem fetch_contract :
    fetchParams = [("vs_currency", .pstr "usd"),
      ("ids", .pstr "bitcoin,ethereum,solana,dogecoin"),
      ("order", .pstr "market_cap_desc"),
      ("per_page", .pnat COINS.length), ("page", .pnat 1), ("sparkline", .pbool false)] ∧
    REQUEST_TIMEOUT = 15 ∧
    ∀ w s,
      (fetchData w s).2.logs = s.logs ++ [(s.clock.headD 0, "Fetching API data...")] ∧
      (∀ m, w.http = .error m → (fetchData w s).1 = .error (.transport m)) ∧
      (∀ resp, w.http = .ok resp → 400 ≤ resp.status → resp.status < 600 →
        ∃ tm, (fetchData w s).1 = .error (.transport tm)) ∧
      (∀ resp recs, w.http = .ok resp → ¬(400 ≤ resp.status ∧ resp.status < 600) →
        resp.body = some recs → (fetchData w s).1 = .ok recs) := by
  refine ⟨by decide, rfl, fun w s => ⟨by simp [fetchData, logMsg, now], ?_, ?_, ?_⟩⟩
  · intro m hm
    simp [fetchData, fetchOutcome, hm]
  · intro resp hr h4 h6
    simp only [fetchData, fetchOutcome, hr]
    rw [if_pos ⟨h4, h6⟩]
    exact ⟨_, rfl⟩
  · intro resp recs hr hst hb
    simp [fetchData, fetchOutcome, hr, hst, hb]

/-- Witness for C8: a transport exception surfaces as a transport
error. -/
theorem fetch_contract_wit :
    wTimeout.http = .error "timed out" ∧
      (fetchData wTimeout { clock := [1], logs := [] }).1 = .error (.transport "timed out") :=
  ⟨by decide, (fetch_contract.2.2 wTimeout { clock := [1], logs := [] }).2.1 "timed out" (by decide)⟩

/-- Counterexample for C8 as stated: an HTTP 304 response is not 2xx,
yet `raise_for_status` does not raise for it, and with a decodable
body the fetch succeeds instead of failing with a transport-class
error. -/
theorem fetch_non2xx_cex :
    w304.http = .ok { status := 304, body := some [] } ∧
      (fetchData w304 { clock := [1], logs := [] }).1 = .ok [] ∧
      ¬(200 ≤ 304 ∧ 304 < 300) := by
  exact ⟨by decide, by decide, by decide⟩

/-- C5 (corrected): the export step reads the clock once at entry,
formats it as the run token and embeds that one token in all eight
artifact filenames.  (The second half of the original claim is false —
see the counterexample: `report_generated_at` comes from a separate,
earlier clock reading taken during the transform step, so it is not
the same time value as the filename token.) -/
theorem export_token_shared (w : World) (dfr dfc : DF) (s : S) (hpdf : w.pdfFail = none) :
    (exportReports w dfr dfc s).1 = .ok () ∧
    ((exportReports w dfr dfc s).2.2.map Prod.fst) =
      [OUTPUT_DIR ++ "/report_" ++ fmtTs (s.clock.headD 0) ++ ".csv",
       OUTPUT_DIR ++ "/report_" ++ fmtTs (s.clock.headD 0) ++ ".json",
       OUTPUT_DIR ++ "/report_" ++ fmtTs (s.clock.headD 0) ++ ".html",
       OUTPUT_DIR ++ "/report_" ++ fmtTs (s.clock.headD 0) ++ ".pdf",
       OUTPUT_DIR ++ "/chart_" ++ fmtTs (s.clock.headD 0) ++ ".png",
       OUTPUT_DIR ++ "/before_data_" ++ fmtTs (s.clock.headD 0) ++ ".png",
       OUTPUT_DIR ++ "/after_data_" ++ fmtTs (s.clock.headD 0) ++ ".png",
       OUTPUT_DIR ++ "/csv_preview_" ++ fmtTs (s.clock.headD 0) ++ ".png"] := by
  constructor <;> simp [exportReports, hpdf, logMsg, now]

/-- Witness for C5 (amended) at a concrete export. -/
theorem export_token_shared_wit :
    w0.pdfFail = none ∧
      (exportReports w0 dfr4 dfc4 { clock := [4], logs := [] }).1 = .ok () ∧
      ((exportReports w0 dfr4 dfc4 { clock := [4], logs := [] }).2.2.map Prod.fst) =
        [OUTPUT_DIR ++ "/report_" ++ fmtTs 4 ++ ".csv",
         OUTPUT_DIR ++ "/report_" ++ fmtTs 4 ++ ".json",
         OUTPUT_DIR ++ "/report_" ++ fmtTs 4 ++ ".html",
         OUTPUT_DIR ++ "/report_" ++ fmtTs 4 ++ ".pdf",
         OUTPUT_DIR ++ "/chart_" ++ fmtTs 4 ++ ".png",
         OUTPUT_DIR ++ "/before_data_" ++ fmtTs 4 ++ ".png",
         OUTPUT_DIR ++ "/after_data_" ++ fmtTs 4 ++ ".png",
         OUTPUT_DIR ++ "/csv_preview_" ++ fmtTs 4 ++ ".png"] :=
  ⟨rfl, (export_token_shared w0 dfr4 dfc4 { clock := [4], logs := [] } rfl).1,
    (export_token_shared w0 dfr4 dfc4 { clock := [4], logs := [] } rfl).2⟩

/-- Counterexample for C5 as stated: in a happy-path run the rows'
`report_generated_at` is the transform-stage clock reading 3, while
the filename token formats the export-stage reading 4 — the token is
not the same single time value as the generation-time column. -/
theorem run_token_vs_stamp_cex :
    (fetchData w0 { clock := w0.clock, logs := [] }).1 = .ok [mkRec "bitcoin" "btc" 90] ∧
      (transformData s1w0 [mkRec "bitcoin" "btc" 90]).1.toOption.map
          (fun p => p.2.cells.map (fun row => row.getD 9 .vnull)) = some [.vstamp 3] ∧
      ((mainRun w0).2.map Prod.fst).head? =
        some (OUTPUT_DIR ++ "/report_" ++ fmtTs 4 ++ ".csv") ∧
      fmtTs 4 ≠ fmtTs 3 := by
  exact ⟨by decide, by decide, by decide, by decide⟩

/-- Counterexample for C6 as stated: under the clock `[10, 11]` the
transform step begins at reading 10 (its first action, the log line,
consumes it), but the rows are stamped with the later reading 11 — the
stamp is taken after projection and type-coercion, not at step
start. -/
theorem transform_stamp_cex :
    (transformData { clock := [10, 11], logs := [] } [mkRec "bitcoin" "btc" 90]).1.toOption.map
        (fun p => p.2.cells.map (fun row => row.getD 9 .vnull)) = some [.vstamp 11] ∧
      ({ clock := [10, 11], logs := [] } : S).clock.headD 0 = 10 ∧
      (Value.vstamp 11) ≠ .vstamp 10 := by
  exact ⟨by decide, by decide, by decide⟩

theorem isErrEntry_fetchMsg (t : Int) : isErrEntry (t, "Fetching API data...") = false := by
  rfl

theorem isErrEntry_transformMsg (t : Int) : isErrEntry (t, "Transforming data...") = false := by
  rfl

theorem isErrEntry_completeMsg (t : Int) : isErrEntry (t, "Export complete.") = false := by
  rfl

theorem isErrEntry_successMsg (t : Int) :
    isErrEntry (t, "Run finished successfully.") = false := by
  rfl

theorem isErrEntry_csvMsg (t : Int) (p : String) :
    isErrEntry (t, "Saving CSV: " ++ p) = false :=
  isErrEntry_append t _ p (by decide) (by decide)

theorem isErrEntry_jsonMsg (t : Int) (p : String) :
    isErrEntry (t, "Saving JSON: " ++ p) = false :=
  isErrEntry_append t _ p (by decide) (by decide)

theorem isErrEntry_htmlMsg (t : Int) (p : String) :
    isErrEntry (t, "Saving HTML: " ++ p) = false :=
  isErrEntry_append t _ p (by decide) (by decide)

theorem isErrEntry_pdfMsg (t : Int) (p : String) :
    isErrEntry (t, "Generating PDF: " ++ p) = false :=
  isErrEntry_append t _ p (by decide) (by decide)

theorem isErrEntry_chartMsg (t : Int) (p : String) :
    isErrEntry (t, "Generating chart: " ++ p) = false :=
  isErrEntry_append t _ p (by decide) (by decide)

theorem isErrEntry_beforeMsg (t : Int) (p : String) :
    isErrEntry (t, "Generating before data screenshot: " ++ p) = false :=
  isErrEntry_append t _ p (by decide) (by decide)

theorem isErrEntry_afterMsg (t : Int) (p : String) :
    isErrEntry (t, "Generating after data screenshot: " ++ p) = false :=
  isErrEntry_append t _ p (by decide) (by decide)

theorem isErrEntry_previewMsg (t : Int) (p : String) :
    isErrEntry (t, "Generating CSV preview screenshot: " ++ p) = false :=
  isErrEntry_append t _ p (by decide) (by decide)

set_option maxHeartbeats 2000000 in
/-- C3 (confirmed): whatever any stage raises, `main` catches it at its
single boundary, logs exactly one `ERROR: <message>` entry (and no
ERROR entry otherwise), and returns normally — `mainRun` is a total
function whose error reporting is exactly one log line per failed
run. -/
theorem main_catches_once (w : World) :
    (((mainRun w).1.logs.filter isErrEntry).map Prod.snd) =
      (match stageOutcome w with
       | some m => ["ERROR: " ++ m]
       | none => []) := by
  rcases hf : fetchOutcome w with e | recs
  · simp [mainRun, fetchData, hf, stageOutcome, logMsg, now, List.filter_append,
      isErrEntry_err, isErrEntry_fetchMsg]
  · cases hp : projectRecs recs with
    | error e =>
      simp [mainRun, fetchData, transformData, hf, hp, stageOutcome, logMsg, now,
        List.filter_append, isErrEntry_err, isErrEntry_fetchMsg, isErrEntry_transformMsg]
    | ok df1 =>
      cases hpdf : w.pdfFail with
      | some m =>
        simp [mainRun, fetchData, transformData, exportReports, hf, hp, hpdf, stageOutcome,
          logMsg, now, List.filter_append, isErrEntry_err, isErrEntry_fetchMsg,
          isErrEntry_transformMsg, isErrEntry_csvMsg, isErrEntry_jsonMsg, isErrEntry_htmlMsg,
          isErrEntry_pdfMsg]
      | none =>
        simp [mainRun, fetchData, transformData, exportReports, hf, hp, hpdf, stageOutcome,
          logMsg, now, List.filter_append, isErrEntry_err, isErrEntry_fetchMsg,
          isErrEntry_transformMsg, isErrEntry_csvMsg, isErrEntry_jsonMsg, isErrEntry_htmlMsg,
          isErrEntry_pdfMsg, isErrEntry_chartMsg, isErrEntry_beforeMsg, isErrEntry_afterMsg,
          isErrEntry_previewMsg, isErrEntry_completeMsg, isErrEntry_successMsg]

/-! ### Column-union membership -/

theorem mem_addKeys_of_mem_acc (r : Rec) :
    ∀ acc, x ∈ acc → x ∈ addKeys acc r := by
  unfold addKeys
  induction r with
  | nil => intro acc h; exact h
  | cons kv rest ih =>
    intro acc h
    rw [List.foldl_cons]
    apply ih
    split <;> simp [h]

theorem mem_addKeys_of_key (c : String) (v : Value) (r : Rec) :
    ∀ acc, (c, v) ∈ r → c ∈ addKeys acc r := by
  induction r with
  | nil => intro acc h; cases h
  | cons kv rest ih =>
    intro acc h
    rcases List.mem_cons.mp h with he | hrest
    · have hc : kv.1 = c := by rw [← he]
      unfold addKeys
      rw [List.foldl_cons]
      apply mem_addKeys_of_mem_acc rest
      by_cases hin : acc.contains kv.1 = true
      · rw [if_pos hin]
        rw [← hc]
        exact List.elem_iff.mp (by simpa using hin)
      · rw [if_neg hin]
        rw [← hc]
        simp
    · unfold addKeys
      rw [List.foldl_cons]
      exact ih _ hrest

theorem mem_foldl_addKeys_of_mem_acc :
    ∀ (rs : List Rec) (acc : List String), x ∈ acc → x ∈ rs.foldl addKeys acc := by
  intro rs
  induction rs with
  | nil => intro acc h; exact h
  | cons r rest ih => intro acc h; exact ih _ (mem_addKeys_of_mem_acc r acc h)

theorem unionKeys_key_mem (c : String) (v : Value) (r : Rec) (rs : List Rec)
    (hr : r ∈ rs) (hv : (c, v) ∈ r) : c ∈ unionKeys rs := by
  unfold unionKeys
  suffices h : ∀ (l : List Rec) (acc : List String), r ∈ l → c ∈ l.foldl addKeys acc by
    exact h rs [] hr
  intro l
  induction l with
  | nil => intro acc h; cases h
  | cons r0 rest ih =>
    intro acc h
    rcases List.mem_cons.mp h with he | hrest
    · rw [List.foldl_cons]
      exact mem_foldl_addKeys_of_mem_acc rest _ (he ▸ mem_addKeys_of_key c v r acc hv)
    · rw [List.foldl_cons]
      exact ih _ hrest

theorem mem_addKeys_cases (r : Rec) :
    ∀ acc, x ∈ addKeys acc r → x ∈ acc ∨ ∃ v, (x, v) ∈ r := by
  induction r with
  | nil => intro acc h; exact .inl h
  | cons kv rest ih =>
    intro acc h
    unfold addKeys at h
    rw [List.foldl_cons] at h
    rcases ih _ h with hacc | ⟨v, hv⟩
    · by_cases hc : acc.contains kv.1
      · rw [if_pos hc] at hacc
        exact .inl hacc
      · rw [if_neg hc] at hacc
        rcases List.mem_append.mp hacc with h1 | h2
        · exact .inl h1
        · refine .inr ⟨kv.2, ?_⟩
          have hx : x = kv.1 := by simpa using h2
          rw [hx]
          exact List.mem_cons_self _ _
    · exact .inr ⟨v, List.mem_cons_of_mem _ hv⟩

theorem mem_unionKeys_cases (rs : List Rec) (h : x ∈ unionKeys rs) :
    ∃ r ∈ rs, ∃ v, (x, v) ∈ r := by
  unfold unionKeys at h
  suffices hg : ∀ (l : List Rec) (acc : List String),
      x ∈ l.foldl addKeys acc → x ∈ acc ∨ ∃ r ∈ l, ∃ v, (x, v) ∈ r by
    rcases hg rs [] h with hc | hr
    · cases hc
    · exact hr
  intro l
  induction l with
  | nil => intro acc h0; exact .inl h0
  | cons r0 rest ih =>
    intro acc h0
    rw [List.foldl_cons] at h0
    rcases ih _ h0 with hacc | ⟨r, hrmem, v, hv⟩
    · rcases mem_addKeys_cases r0 acc hacc with h1 | ⟨v, hv⟩
      · exact .inl h1
      · exact .inr ⟨r0, List.mem_cons_self _ _, v, hv⟩
    · exact .inr ⟨r, List.mem_cons_of_mem _ hrmem, v, hv⟩

theorem recGet_isSome_key (r : Rec) (c : String) (h : (recGet r c).isSome) :
    ∃ v, (c, v) ∈ r := by
  unfold recGet at h
  cases hf : r.find? (fun kv => kv.1 == c) with
  | none => rw [hf] at h; simp at h
  | some kv =>
    have hmem := List.mem_of_find?_eq_some hf
    have hpred := List.find?_some hf
    have hc : kv.1 = c := by simpa using hpred
    exact ⟨kv.2, by rw [← hc]; exact hmem⟩

theorem recGet_none_notKey (r : Rec) (c : String) (h : recGet r c = none) (v : Value) :
    (c, v) ∉ r := by
  intro hmem
  unfold recGet at h
  rw [Option.map_eq_none'] at h
  have := List.find?_eq_none.mp h (c, v) hmem
  simp at this

theorem unionKeys_mem_of (recs : List Rec) (r : Rec) (c : String)
    (hr : r ∈ recs) (h : (recGet r c).isSome) : c ∈ unionKeys recs := by
  obtain ⟨v, hv⟩ := recGet_isSome_key r c h
  exact unionKeys_key_mem c v r recs hr hv

theorem projectRecs_ok_of (recs : List Rec)
    (h : ∀ c ∈ requiredCols, ∃ r ∈ recs, (recGet r c).isSome) :
    projectRecs recs =
      .ok { cols := requiredCols
            cells := recs.map (fun r => requiredCols.map (fun c => (recGet r c).getD .vnull)) } := by
  unfold projectRecs
  have hm : requiredCols.filter (fun c => !((unionKeys recs).contains c)) = [] := by
    rw [List.filter_eq_nil_iff]
    intro c hc
    obtain ⟨r, hr, hs⟩ := h c hc
    simp [unionKeys_mem_of recs r c hr hs]
  rw [hm]
  rfl

theorem projectRecs_err_of (recs : List Rec) (c : String)
    (hc : c ∈ requiredCols) (habs : ∀ r ∈ recs, recGet r c = none) :
    ∃ missing, projectRecs recs = .error (.keyError missing) ∧ c ∈ missing := by
  have hnc : (unionKeys recs).contains c = false := by
    by_contra hcon
    have hmem : c ∈ unionKeys recs := by
      have hb : (unionKeys recs).contains c = true := by
        revert hcon
        cases (unionKeys recs).contains c <;> simp
      exact List.elem_iff.mp (by simpa using hb)
    obtain ⟨r, hr, v, hv⟩ := mem_unionKeys_cases recs hmem
    exact recGet_none_notKey r c (habs r hr) v hv
  have hmemf : c ∈ requiredCols.filter (fun x => !((unionKeys recs).contains x)) :=
    List.mem_filter.mpr ⟨hc, by rw [hnc]; rfl⟩
  have hne : (requiredCols.filter (fun x => !((unionKeys recs).contains x))).isEmpty = false := by
    cases hl : requiredCols.filter (fun x => !((unionKeys recs).contains x)) with
    | nil => rw [hl] at hmemf; cases hmemf
    | cons a l => rfl
  refine ⟨requiredCols.filter (fun x => !((unionKeys recs).contains x)), ?_, hmemf⟩
  unfold projectRecs
  rw [hne]
  rfl

/-- C2 (confirmed): when every record of an otherwise-successful
response lacks required column `c`, the projection fails with the
schema-failure class (`KeyError` listing the absent column), the run
writes zero artifacts, and the failure shows up as the single `ERROR:`
log entry. -/
theorem schema_error_no_artifacts (w : World) (recs : List Rec) (c : String)
    (hw : w.http = .ok { status := 200, body := some recs })
    (hc : c ∈ requiredCols) (habs : ∀ r ∈ recs, recGet r c = none) :
    (∃ missing, projectRecs recs = .error (.keyError missing) ∧ c ∈ missing) ∧
      (mainRun w).2 = [] ∧
      ∃ t m, ((mainRun w).1.logs.filter isErrEntry) = [(t, "ERROR: " ++ m)] := by
  obtain ⟨missing, hm, hcm⟩ := projectRecs_err_of recs c hc habs
  have hfetch : fetchOutcome w = .ok recs := by
    simp [fetchOutcome, hw]
  refine ⟨⟨missing, hm, hcm⟩, ?_, ?_⟩
  · simp [mainRun, fetchData, transformData, hfetch, hm]
  · refine ⟨w.clock.tail.tail.headD 0, errMsg (.keyError missing), ?_⟩
    simp [mainRun, fetchData, transformData, hfetch, hm, logMsg, now, List.filter_append,
      isErrEntry_err, isErrEntry_fetchMsg, isErrEntry_transformMsg]

/-- Witness for C2 at a concrete response missing `id` everywhere. -/
theorem schema_error_no_artifacts_wit :
    ("id" ∈ requiredCols) ∧
      ((∃ missing, projectRecs [[("symbol", .vstr "btc"), ("market_cap", .vnum 5)]] =
          .error (.keyError missing) ∧ "id" ∈ missing) ∧
        (mainRun wMissing).2 = [] ∧
        ∃ t m, ((mainRun wMissing).1.logs.filter isErrEntry) = [(t, "ERROR: " ++ m)]) :=
  ⟨by decide,
    schema_error_no_artifacts wMissing [[("symbol", .vstr "btc"), ("market_cap", .vnum 5)]] "id"
      (by decide) (by decide) (by decide)⟩

/-! ### Length and membership invariants of the argsort kernels -/

theorem getD_mem_of_lt (l : List α) (d : α) (h : i < l.length) : l.getD i d ∈ l := by
  rw [List.getD_eq_getElem l d h]
  exact List.getElem_mem h

theorem swapT_length (t : List Nat) (i j : Nat) : (swapT t i j).length = t.length := by
  unfold swapT
  split
  · simp
  · rfl

theorem mem_swapT (t : List Nat) (i j : Nat) (h : x ∈ swapT t i j) : x ∈ t := by
  unfold swapT at h
  by_cases hb : i < t.length ∧ j < t.length
  · rw [if_pos hb] at h
    rcases List.mem_or_eq_of_mem_set h with h1 | h1
    · rcases List.mem_or_eq_of_mem_set h1 with h2 | h2
      · exact h2
      · rw [h2]; exact getD_mem_of_lt t 0 hb.2
    · rw [h1]; exact getD_mem_of_lt t 0 hb.1
  · rw [if_neg hb] at h
    exact h

theorem mem_ite_swapT (t : List Nat) (i j : Nat) (c : Prop) [Decidable c]
    (h : x ∈ (if c then swapT t i j else t)) : x ∈ t := by
  by_cases hc : c
  · rw [if_pos hc] at h; exact mem_swapT t i j h
  · rw [if_neg hc] at h; exact h

theorem insIdx_length (v : List Int) (i : Nat) (l : List Nat) :
    (insIdx v i l).length = l.length + 1 := by
  induction l with
  | nil => rfl
  | cons j rest ih =>
    unfold insIdx
    split
    · simp
    · simp [ih]

theorem mem_insIdx (v : List Int) (i : Nat) (l : List Nat) (h : x ∈ insIdx v i l) :
    x = i ∨ x ∈ l := by
  induction l with
  | nil =>
    simp only [insIdx] at h
    simp at h
    exact .inl h
  | cons j rest ih =>
    unfold insIdx at h
    split at h
    · rcases List.mem_cons.mp h with h1 | h1
      · exact .inl h1
      · exact .inr h1
    · rcases List.mem_cons.mp h with h1 | h1
      · exact .inr (h1 ▸ List.mem_cons_self _ _)
      · rcases ih h1 with h2 | h2
        · exact .inl h2
        · exact .inr (List.mem_cons_of_mem _ h2)

theorem insFold_length (v : List Int) :
    ∀ (seg acc : List Nat),
      (seg.foldl (fun ac j => insIdx v j ac) acc).length = acc.length + seg.length := by
  intro seg
  induction seg with
  | nil => intro acc; simp
  | cons j rest ih =>
    intro acc
    rw [List.foldl_cons, ih, insIdx_length, List.length_cons]
    omega

theorem mem_insFold (v : List Int) :
    ∀ (seg acc : List Nat), x ∈ seg.foldl (fun ac j => insIdx v j ac) acc →
      x ∈ acc ∨ x ∈ seg := by
  intro seg
  induction seg with
  | nil => intro acc h; exact .inl h
  | cons j rest ih =>
    intro acc h
    rw [List.foldl_cons] at h
    rcases ih _ h with h1 | h1
    · rcases mem_insIdx v j acc h1 with h2 | h2
      · exact .inr (h2 ▸ List.mem_cons_self _ _)
      · exact .inl h2
    · exact .inr (List.mem_cons_of_mem _ h1)

theorem insSortSeg_length (v : List Int) (seg : List Nat) :
    (insSortSeg v seg).length = seg.length := by
  unfold insSortSeg
  rw [insFold_length]
  simp

theorem mem_insSortSeg (v : List Int) (seg : List Nat) (h : x ∈ insSortSeg v seg) :
    x ∈ seg := by
  unfold insSortSeg at h
  rcases mem_insFold v seg [] h with h1 | h1
  · cases h1
  · exact h1

theorem insertionSortRange_length (v : List Int) (t : List Nat) (pl pr : Nat) :
    (insertionSortRange v t pl pr).length = t.length := by
  unfold insertionSortRange
  by_cases hb : pl ≤ pr ∧ pr < t.length
  · rw [if_pos hb]
    simp [insSortSeg_length]
    omega
  · rw [if_neg hb]

theorem mem_insertionSortRange (v : List Int) (t : List Nat) (pl pr : Nat)
    (h : x ∈ insertionSortRange v t pl pr) : x ∈ t := by
  unfold insertionSortRange at h
  by_cases hb : pl ≤ pr ∧ pr < t.length
  · rw [if_pos hb] at h
    rcases List.mem_append.mp h with h1 | h1
    · rcases List.mem_append.mp h1 with h2 | h2
      · exact List.mem_of_mem_take h2
      · exact List.mem_of_mem_drop (List.mem_of_mem_take (mem_insSortSeg v _ h2))
    · exact List.mem_of_mem_drop h1
  · rw [if_neg hb] at h
    exact h

theorem partScan_length (v : List Int) :
    ∀ (f : Nat) (t : List Nat) (vp : Int) (pi pj : Nat),
      ((partScan v f t vp pi pj).1).length = t.length := by
  intro f
  induction f with
  | zero => intro t vp pi pj; rfl
  | succ f ih =>
    intro t vp pi pj
    simp only [partScan]
    split
    · rfl
    · rw [ih, swapT_length]

theorem mem_partScan (v : List Int) :
    ∀ (f : Nat) (t : List Nat) (vp : Int) (pi pj : Nat),
      x ∈ (partScan v f t vp pi pj).1 → x ∈ t := by
  intro f
  induction f with
  | zero => intro t vp pi pj h; exact h
  | succ f ih =>
    intro t vp pi pj h
    simp only [partScan] at h
    split at h
    · exact h
    · exact mem_swapT _ _ _ (ih _ _ _ _ h)

theorem ite_swapT_length (t : List Nat) (i j : Nat) (c : Prop) [Decidable c] :
    (if c then swapT t i j else t).length = t.length := by
  split
  · exact swapT_length t i j
  · rfl

theorem doPartition_length (v : List Int) (f : Nat) (t : List Nat) (pl pr : Nat) :
    ((doPartition v f t pl pr).1).length = t.length := by
  simp only [doPartition]
  rw [swapT_length, partScan_length, swapT_length, ite_swapT_length, ite_swapT_length,
    ite_swapT_length]

theorem mem_doPartition (v : List Int) (f : Nat) (t : List Nat) (pl pr : Nat)
    (h : x ∈ (doPartition v f t pl pr).1) : x ∈ t := by
  simp only [doPartition] at h
  have h1 := mem_swapT _ _ _ h
  have h2 := mem_partScan v f _ _ _ _ h1
  have h3 := mem_swapT _ _ _ h2
  have h4 := mem_ite_swapT _ _ _ _ h3
  have h5 := mem_ite_swapT _ _ _ _ h4
  exact mem_ite_swapT _ _ _ _ h5

theorem qsWhile_length (v : List Int) :
    ∀ (f : Nat) (t : List Nat) (pl pr : Nat) (st : List (Nat × Nat)),
      ((qsWhile v f t pl pr st).1).length = t.length := by
  intro f
  induction f with
  | zero => intro t pl pr st; rfl
  | succ f ih =>
    intro t pl pr st
    simp only [qsWhile]
    split
    · split
      · rw [ih, doPartition_length]
      · rw [ih, doPartition_length]
    · rfl

theorem mem_qsWhile (v : List Int) :
    ∀ (f : Nat) (t : List Nat) (pl pr : Nat) (st : List (Nat × Nat)),
      x ∈ (qsWhile v f t pl pr st).1 → x ∈ t := by
  intro f
  induction f with
  | zero => intro t pl pr st h; exact h
  | succ f ih =>
    intro t pl pr st h
    simp only [qsWhile] at h
    split at h
    · split at h
      · exact mem_doPartition v f t pl pr (ih _ _ _ _ h)
      · exact mem_doPartition v f t pl pr (ih _ _ _ _ h)
    · exact h

theorem hsSift_length (v : List Int) :
    ∀ (f : Nat) (t : List Nat) (pl n i : Nat), (hsSift v f t pl n i).length = t.length := by
  intro f
  induction f with
  | zero => intro t pl n i; rfl
  | succ f ih =>
    intro t pl n i
    simp only [hsSift]
    split
    · split <;> split
      · rw [ih]; unfold hsSwap; rw [swapT_length]
      · rfl
      · rw [ih]; unfold hsSwap; rw [swapT_length]
      · rfl
    · rfl

theorem mem_hsSift (v : List Int) :
    ∀ (f : Nat) (t : List Nat) (pl n i : Nat), x ∈ hsSift v f t pl n i → x ∈ t := by
  intro f
  induction f with
  | zero => intro t pl n i h; exact h
  | succ f ih =>
    intro t pl n i h
    simp only [hsSift] at h
    split at h
    · split at h <;> split at h
      · exact mem_swapT _ _ _ (ih _ _ _ _ h)
      · exact h
      · exact mem_swapT _ _ _ (ih _ _ _ _ h)
      · exact h
    · exact h

theorem hsBuild_length (v : List Int) :
    ∀ (f : Nat) (t : List Nat) (pl n l : Nat), (hsBuild v f t pl n l).length = t.length := by
  intro f
  induction f with
  | zero => intro t pl n l; rfl
  | succ f ih =>
    intro t pl n l
    simp only [hsBuild]
    split
    · rfl
    · rw [ih, hsSift_length]

theorem mem_hsBuild (v : List Int) :
    ∀ (f : Nat) (t : List Nat) (pl n l : Nat), x ∈ hsBuild v f t pl n l → x ∈ t := by
  intro f
  induction f with
  | zero => intro t pl n l h; exact h
  | succ f ih =>
    intro t pl n l h
    simp only [hsBuild] at h
    split at h
    · exact h
    · exact mem_hsSift v f _ _ _ _ (ih _ _ _ _ h)

theorem hsExtract_length (v : List Int) :
    ∀ (f : Nat) (t : List Nat) (pl m : Nat), (hsExtract v f t pl m).length = t.length := by
  intro f
  induction f with
  | zero => intro t pl m; rfl
  | succ f ih =>
    intro t pl m
    simp only [hsExtract]
    split
    · rfl
    · rw [ih, hsSift_length]
      unfold hsSwap
      rw [swapT_length]

theorem mem_hsExtract (v : List Int) :
    ∀ (f : Nat) (t : List Nat) (pl m : Nat), x ∈ hsExtract v f t pl m → x ∈ t := by
  intro f
  induction f with
  | zero => intro t pl m h; exact h
  | succ f ih =>
    intro t pl m h
    simp only [hsExtract] at h
    split at h
    · exact h
    · exact mem_swapT _ _ _ (mem_hsSift v f _ _ _ _ (ih _ _ _ h))

theorem heapsortRange_length (v : List Int) (f : Nat) (t : List Nat) (pl pr : Nat) :
    (heapsortRange v f t pl pr).length = t.length := by
  unfold heapsortRange
  rw [hsExtract_length, hsBuild_length]

theorem mem_heapsortRange (v : List Int) (f : Nat) (t : List Nat) (pl pr : Nat)
    (h : x ∈ heapsortRange v f t pl pr) : x ∈ t := by
  unfold heapsortRange at h
  exact mem_hsBuild v f _ _ _ _ (mem_hsExtract v f _ _ _ h)

theorem qsOuter_length (v : List Int) :
    ∀ (f : Nat) (t : List Nat) (pl pr : Nat) (depth : Int) (st : List (Nat × Nat)),
      (qsOuter v f t pl pr depth st).length = t.length := by
  intro f
  induction f with
  | zero => intro t pl pr depth st; rfl
  | succ f ih =>
    intro t pl pr depth st
    simp only [qsOuter]
    split
    · cases st with
      | nil => exact heapsortRange_length v f t pl pr
      | cons p rest =>
        rw [ih, heapsortRange_length]
    · cases hq : (qsWhile v f t pl pr st).2.2.2 with
      | nil =>
        simp only [hq]
        rw [insertionSortRange_length, qsWhile_length]
      | cons p rest =>
        simp only [hq]
        rw [ih, insertionSortRange_length, qsWhile_length]

theorem mem_qsOuter (v : List Int) :
    ∀ (f : Nat) (t : List Nat) (pl pr : Nat) (depth : Int) (st : List (Nat × Nat)),
      x ∈ qsOuter v f t pl pr depth st → x ∈ t := by
  intro f
  induction f with
  | zero => intro t pl pr depth st h; exact h
  | succ f ih =>
    intro t pl pr depth st h
    simp only [qsOuter] at h
    split at h
    · cases st with
      | nil => exact mem_heapsortRange v f t pl pr h
      | cons p rest =>
        exact mem_heapsortRange v f t pl pr (ih _ _ _ _ _ h)
    · cases hq : (qsWhile v f t pl pr st).2.2.2 with
      | nil =>
        rw [hq] at h
        exact mem_qsWhile v f _ _ _ _ (mem_insertionSortRange v _ _ _ h)
      | cons p rest =>
        rw [hq] at h
        exact mem_qsWhile v f _ _ _ _ (mem_insertionSortRange v _ _ _ (ih _ _ _ _ _ h))

theorem introArgsort_length (v : List Int) : (introArgsort v).length = v.length := by
  unfold introArgsort
  rw [qsOuter_length, List.length_range]

theorem mem_introArgsort_lt (v : List Int) (h : x ∈ introArgsort v) : x < v.length := by
  unfold introArgsort at h
  exact List.mem_range.mp (mem_qsOuter v _ _ _ _ _ _ h)

theorem filter_split_length (l : List α) (p : α → Bool) :
    (l.filter p).length + (l.filter (fun a => !p a)).length = l.length := by
  induction l with
  | nil => rfl
  | cons a rest ih =>
    by_cases h : p a <;> simp [List.filter_cons, h] <;> omega

theorem nargsortDesc_length (keys : List (Option Int)) :
    (nargsortDesc keys).length = keys.length := by
  simp only [nargsortDesc]
  rw [List.length_append, List.length_reverse, List.length_map, introArgsort_length,
    List.length_map, List.length_reverse]
  have := filter_split_length (List.range keys.length)
    (fun i => (keys.getD i none).isSome)
  rw [List.length_range] at this
  omega

theorem mem_nargsortDesc_lt (keys : List (Option Int)) (h : x ∈ nargsortDesc keys) :
    x < keys.length := by
  simp only [nargsortDesc] at h
  rcases List.mem_append.mp h with h1 | h1
  · rw [List.mem_reverse] at h1
    rcases List.mem_map.mp h1 with ⟨k, hk, hx⟩
    have hklt : k < ((List.range keys.length).filter
        (fun i => (keys.getD i none).isSome)).reverse.length := by
      have := mem_introArgsort_lt _ hk
      rw [List.length_map] at this
      exact this
    rw [← hx]
    have hmem := getD_mem_of_lt _ 0 hklt
    rw [List.mem_reverse] at hmem
    exact List.mem_range.mp (List.mem_filter.mp hmem).1
  · exact List.mem_range.mp (List.mem_filter.mp h1).1

/-! ### Shape of the cleaned table -/

theorem cells_after_clean (recs : List Rec) (t : Int) :
    addCol (mapCol (mapCol
        { cols := requiredCols
          cells := recs.map (fun r => requiredCols.map (fun c => (recGet r c).getD .vnull)) }
        "symbol" upperVal) "last_updated" parseTimeVal) "report_generated_at" (.vstamp t)
      = { cols := requiredCols ++ ["report_generated_at"]
          cells := recs.map (fun r => cleanRowOf r t) } := by
  have h1 : requiredCols.findIdx? (fun x => x == "symbol") = some 1 := rfl
  have h2 : requiredCols.findIdx? (fun x => x == "last_updated") = some 8 := rfl
  simp only [mapCol, h1, h2, addCol]
  refine congrArg _ ?_
  simp only [List.map_map]
  apply List.map_congr_left
  intro r hr
  simp [requiredCols, cleanRowOf]

theorem transformData_ok_inv (s : S) (recs : List Rec) (p : DF × DF) (s' : S)
    (h : transformData s recs = (.ok p, s')) :
    p.2 = sortByCapDesc
        { cols := requiredCols ++ ["report_generated_at"]
          cells := recs.map (fun r => cleanRowOf r (s.clock.tail.headD 0)) } := by
  unfold transformData at h
  cases hpj : projectRecs recs with
  | error e =>
    rw [hpj] at h
    simp at h
  | ok df1 =>
    rw [hpj] at h
    have hdf1 : df1 =
        { cols := requiredCols
          cells := recs.map (fun r => requiredCols.map (fun c => (recGet r c).getD .vnull)) } := by
      unfold projectRecs at hpj
      split at hpj
      · injection hpj with hx
        exact hx.symm
      · cases hpj
    subst hdf1
    simp only [Prod.mk.injEq, Except.ok.injEq] at h
    rw [← h.1]
    simp only [logMsg, now]
    rw [cells_after_clean]

theorem capsOfDF_clean (recs : List Rec) (t : Int) :
    capsOfDF { cols := requiredCols ++ ["report_generated_at"]
               cells := recs.map (fun r => cleanRowOf r t) }
      = capKeyOf recs := by
  have hidx : (requiredCols ++ ["report_generated_at"]).findIdx?
      (fun x => x == "market_cap") = some 4 := rfl
  simp only [capsOfDF, hidx, List.map_map, capKeyOf]
  apply List.map_congr_left
  intro r hr
  simp [cleanRowOf]

theorem sorted_cells_eq (s : S) (recs : List Rec) (p : DF × DF) (s' : S)
    (h : transformData s recs = (.ok p, s')) :
    p.2.cells = (nargsortDesc (capKeyOf recs)).map
        (fun i => (recs.map (fun r => cleanRowOf r (s.clock.tail.headD 0))).getD i []) := by
  rw [transformData_ok_inv s recs p s' h]
  simp only [sortByCapDesc, capsOfDF_clean]

/-- C6 (corrected): every row of a successful transform carries the
identical `report_generated_at` value, produced by the single
`datetime.now()` call of the step — the step's second clock reading
(its log line consumes the first), taken after projection and type
coercion and before the sort, not at step start and not per-row. -/
theorem transform_stamp_shared (s : S) (recs : List Rec) (p : DF × DF) (s' : S)
    (h : transformData s recs = (.ok p, s')) :
    ∀ row ∈ p.2.cells, row.getD 9 .vnull = .vstamp (s.clock.tail.headD 0) := by
  intro row hrow
  rw [sorted_cells_eq s recs p s' h] at hrow
  rcases List.mem_map.mp hrow with ⟨i, hi, hrw⟩
  have hlt : i < (recs.map (fun r => cleanRowOf r (s.clock.tail.headD 0))).length := by
    have := mem_nargsortDesc_lt (capKeyOf recs) hi
    rw [List.length_map]
    unfold capKeyOf at this
    rw [List.length_map] at this
    exact this
  rw [← hrw, List.getD_eq_getElem _ _ hlt, List.getElem_map]
  rfl

/-- Witness for C6 (amended) at the §8 scenario. -/
theorem transform_stamp_shared_wit :
    transformData { clock := [0, 1], logs := [] } recs4 = (.ok (dfr4, dfc4), tr4.2) ∧
      ∀ row ∈ (dfr4, dfc4).2.cells, row.getD 9 .vnull = .vstamp 1 :=
  ⟨by decide,
    transform_stamp_shared { clock := [0, 1], logs := [] } recs4 (dfr4, dfc4) tr4.2 (by decide)⟩

theorem validRec_symbol (r : Rec) (h : validRecB r = true) :
    ∃ sym, recGet r "symbol" = some (.vstr sym) := by
  unfold validRecB at h
  rw [Bool.and_eq_true] at h
  cases hsym : recGet r "symbol" with
  | none => rw [hsym] at h; simp at h
  | some v =>
    cases v with
    | vstr sy => exact ⟨sy, rfl⟩
    | vnull => rw [hsym] at h; simp at h
    | vnum n => rw [hsym] at h; simp at h
    | vtime a => rw [hsym] at h; simp at h
    | vstamp a => rw [hsym] at h; simp at h

theorem validRec_fields (r : Rec) (h : validRecB r = true) :
    ∀ c ∈ requiredCols, (recGet r c).isSome := by
  unfold validRecB at h
  rw [Bool.and_eq_true] at h
  exact List.all_eq_true.mp h.1

theorem transformData_ok_of (s : S) (recs : List Rec)
    (hp : ∀ c ∈ requiredCols, ∃ r ∈ recs, (recGet r c).isSome) :
    transformData s recs =
      (.ok (dfOfRecords recs, sortByCapDesc
          { cols := requiredCols ++ ["report_generated_at"]
            cells := recs.map (fun r => cleanRowOf r (s.clock.tail.headD 0)) }),
        { clock := s.clock.tail.tail
          logs := s.logs ++ [(s.clock.headD 0, "Transforming data...")] }) := by
  unfold transformData
  rw [projectRecs_ok_of recs hp]
  simp only [logMsg, now]
  rw [cells_after_clean]

/-- C4 (confirmed): for a valid response (every record carries all
nine required fields, symbol a string), the transform succeeds and
yields exactly one row per record, with the exact ten-column schema in
order, ten cells per row, and every row's symbol cell the upper-cased
symbol of one of the input records. -/
theorem transform_schema_rows (s : S) (recs : List Rec)
    (hv : ∀ r ∈ recs, validRecB r = true) (hne : recs ≠ []) :
    ∃ dfc s', transformData s recs = (.ok (dfOfRecords recs, dfc), s') ∧
      dfc.cols = requiredCols ++ ["report_generated_at"] ∧
      dfc.cells.length = recs.length ∧
      ∀ row ∈ dfc.cells, row.length = 10 ∧
        ∃ r ∈ recs, ∃ sym, recGet r "symbol" = some (.vstr sym) ∧
          row.getD 1 .vnull = .vstr (upStr sym) := by
  have hp : ∀ c ∈ requiredCols, ∃ r ∈ recs, (recGet r c).isSome := by
    cases recs with
    | nil => exact absurd rfl hne
    | cons r0 rest =>
      intro c hc
      exact ⟨r0, List.mem_cons_self _ _, validRec_fields r0 (hv r0 (List.mem_cons_self _ _)) c hc⟩
  refine ⟨_, _, transformData_ok_of s recs hp, rfl, ?_, ?_⟩
  · simp only [sortByCapDesc, capsOfDF_clean]
    rw [List.length_map, nargsortDesc_length]
    simp [capKeyOf]
  · intro row hrow
    simp only [sortByCapDesc, capsOfDF_clean] at hrow
    rcases List.mem_map.mp hrow with ⟨i, hi, hrw⟩
    have hlt : i < (recs.map (fun r => cleanRowOf r (s.clock.tail.headD 0))).length := by
      have := mem_nargsortDesc_lt (capKeyOf recs) hi
      rw [List.length_map]
      unfold capKeyOf at this
      rw [List.length_map] at this
      exact this
    have hlt' : i < recs.length := by
      rw [List.length_map] at hlt
      exact hlt
    rw [← hrw, List.getD_eq_getElem _ _ hlt, List.getElem_map]
    constructor
    · rfl
    · obtain ⟨sym, hsym⟩ :=
        validRec_symbol recs[i] (hv recs[i] (List.getElem_mem hlt'))
      refine ⟨recs[i], List.getElem_mem hlt', sym, hsym, ?_⟩
      simp only [cleanRowOf, hsym]
      rfl

/-- Witness for C4 at the §8 scenario. -/
theorem transform_schema_rows_wit :
    (∀ r ∈ recs4, validRecB r = true) ∧
      ∃ dfc s', transformData { clock := [0, 1], logs := [] } recs4 =
          (.ok (dfOfRecords recs4, dfc), s') ∧
        dfc.cols = requiredCols ++ ["report_generated_at"] ∧
        dfc.cells.length = recs4.length ∧
        ∀ row ∈ dfc.cells, row.length = 10 ∧
          ∃ r ∈ recs4, ∃ sym, recGet r "symbol" = some (.vstr sym) ∧
            row.getD 1 .vnull = .vstr (upStr sym) :=
  ⟨by decide,
    transform_schema_rows { clock := [0, 1], logs := [] } recs4 (by decide) (by decide)⟩

/-- C10 (confirmed): if every required column is present in at least
one record, the projection succeeds even when other records lack some
of those fields — the transform returns a full-length row collection
whose missing cells are the null value, and the export step then runs
to completion on that incomplete data. -/
theorem transform_partial_nulls (s : S) (recs : List Rec)
    (hcov : ∀ c ∈ requiredCols, ∃ r ∈ recs, (recGet r c).isSome) :
    ∃ dfc s', transformData s recs = (.ok (dfOfRecords recs, dfc), s') ∧
      dfc.cells.length = recs.length ∧
      (∀ row ∈ dfc.cells, ∃ r ∈ recs, row = cleanRowOf r (s.clock.tail.headD 0)) ∧
      (∀ r ∈ recs, ∀ j, j < 9 → recGet r (requiredCols.getD j "") = none →
        (cleanRowOf r (s.clock.tail.headD 0)).getD j .vnull = .vnull) ∧
      (∀ w s2, w.pdfFail = none →
        (exportReports w (dfOfRecords recs) dfc s2).1 = .ok ()) := by
  refine ⟨_, _, transformData_ok_of s recs hcov, ?_, ?_, ?_, ?_⟩
  · simp only [sortByCapDesc, capsOfDF_clean]
    rw [List.length_map, nargsortDesc_length]
    simp [capKeyOf]
  · intro row hrow
    simp only [sortByCapDesc, capsOfDF_clean] at hrow
    rcases List.mem_map.mp hrow with ⟨i, hi, hrw⟩
    have hlt : i < (recs.map (fun r => cleanRowOf r (s.clock.tail.headD 0))).length := by
      have := mem_nargsortDesc_lt (capKeyOf recs) hi
      rw [List.length_map]
      unfold capKeyOf at this
      rw [List.length_map] at this
      exact this
    have hlt' : i < recs.length := by
      rw [List.length_map] at hlt
      exact hlt
    rw [← hrw, List.getD_eq_getElem _ _ hlt, List.getElem_map]
    exact ⟨recs[i], List.getElem_mem hlt', rfl⟩
  · intro r _ j hj hnone
    interval_cases j <;>
      simp_all [cleanRowOf, requiredCols, upperVal, parseTimeVal]
  · intro w s2 hpdf
    simp [exportReports, hpdf]

/-! ### Stability of the insertion-sort regime (inputs of ≤ 16 rows)

For at most 16 keys the introsort's quicksort loop never runs and the
whole argsort is one stable insertion sort; combined with pandas's
double reversal for descending order, the resulting indexer is the
unique stable descending permutation. -/

theorem insIdx_pairwise (v : List Int) (i : Nat) (acc : List Nat)
    (hacc : acc.Pairwise (fun a b =>
      v.getD a 0 < v.getD b 0 ∨ (v.getD a 0 = v.getD b 0 ∧ a < b)))
    (hlt : ∀ j ∈ acc, j < i) :
    (insIdx v i acc).Pairwise (fun a b =>
      v.getD a 0 < v.getD b 0 ∨ (v.getD a 0 = v.getD b 0 ∧ a < b)) := by
  induction acc with
  | nil => simp [insIdx]
  | cons j rest ih =>
    rcases List.pairwise_cons.mp hacc with ⟨hj, hrest⟩
    unfold insIdx
    by_cases hc : v.getD i 0 < v.getD j 0
    · rw [if_pos hc]
      refine List.pairwise_cons.mpr ⟨?_, hacc⟩
      intro x hx
      rcases List.mem_cons.mp hx with hxe | hxr
      · rw [hxe]
        exact .inl hc
      · rcases hj x hxr with hlt2 | ⟨heq2, _⟩
        · exact .inl (lt_trans hc hlt2)
        · exact .inl (heq2 ▸ hc)
    · rw [if_neg hc]
      refine List.pairwise_cons.mpr ⟨?_, ?_⟩
      · intro x hx
        rcases mem_insIdx v i rest hx with hxe | hxr
        · rw [hxe]
          rcases lt_or_eq_of_le (not_lt.mp hc) with hlt2 | heq2
          · exact .inl hlt2
          · exact .inr ⟨heq2, hlt j (List.mem_cons_self _ _)⟩
        · exact hj x hxr
      · exact ih hrest (fun a ha => hlt a (List.mem_cons_of_mem _ ha))

theorem insFold_pairwise (v : List Int) :
    ∀ (seg acc : List Nat),
      acc.Pairwise (fun a b =>
        v.getD a 0 < v.getD b 0 ∨ (v.getD a 0 = v.getD b 0 ∧ a < b)) →
      (∀ a ∈ acc, ∀ b ∈ seg, a < b) → seg.Pairwise (· < ·) →
      (seg.foldl (fun ac j => insIdx v j ac) acc).Pairwise (fun a b =>
        v.getD a 0 < v.getD b 0 ∨ (v.getD a 0 = v.getD b 0 ∧ a < b)) := by
  intro seg
  induction seg with
  | nil => intro acc hacc _ _; exact hacc
  | cons j rest ih =>
    intro acc hacc hcross hseg
    rcases List.pairwise_cons.mp hseg with ⟨hjr, hrest⟩
    rw [List.foldl_cons]
    apply ih
    · exact insIdx_pairwise v j acc hacc
        (fun a ha => hcross a ha j (List.mem_cons_self _ _))
    · intro a ha b hb
      rcases mem_insIdx v j acc ha with hae | har
      · exact hae ▸ hjr b hb
      · exact hcross a har b (List.mem_cons_of_mem _ hb)
    · exact hrest

theorem insSortSeg_range_pairwise (v : List Int) (n : Nat) :
    (insSortSeg v (List.range n)).Pairwise (fun a b =>
      v.getD a 0 < v.getD b 0 ∨ (v.getD a 0 = v.getD b 0 ∧ a < b)) := by
  unfold insSortSeg
  exact insFold_pairwise v (List.range n) [] (by simp) (by simp) (List.pairwise_lt_range n)

theorem mem_range_of_mem_insSortSeg (v : List Int) (n : Nat)
    (h : x ∈ insSortSeg v (List.range n)) : x < n :=
  List.mem_range.mp (mem_insSortSeg v _ h)

theorem qsWhile_small (v : List Int) (f : Nat) (t : List Nat) (pl pr : Nat)
    (st : List (Nat × Nat)) (h : pr - pl ≤ 15) :
    qsWhile v f t pl pr st = (t, pl, pr, st) := by
  cases f with
  | zero => rfl
  | succ f =>
    simp only [qsWhile]
    rw [if_neg (by omega)]

theorem introArgsort_small (v : List Int) (h : v.length ≤ 16) :
    introArgsort v = insSortSeg v (List.range v.length) := by
  unfold introArgsort
  obtain ⟨f, hf⟩ : ∃ f, fuelFor v.length = f + 1 :=
    ⟨v.length * v.length + 63, by unfold fuelFor; omega⟩
  rw [hf]
  simp only [qsOuter]
  rw [if_neg (by omega)]
  rw [qsWhile_small v f _ 0 (v.length - 1) [] (by omega)]
  cases hn : v.length with
  | zero =>
    simp [insertionSortRange, insSortSeg]
  | succ m =>
    simp only [insertionSortRange]
    rw [if_pos (by simp)]
    simp only [List.take_zero, List.drop_zero, List.nil_append]
    rw [show m + 1 - 1 + 1 - 0 = m + 1 by omega]
    rw [show (List.range (m + 1)).take (m + 1)
        = List.range (m + 1) from List.take_of_length_le (by simp)]
    rw [show (List.range (m + 1)).drop (m + 1 - 1 + 1)
        = [] from List.drop_eq_nil_of_le (by simp)]
    rw [List.append_nil]

theorem range_reverse_getD (n a : Nat) (h : a < n) :
    ((List.range n).reverse).getD a 0 = n - 1 - a := by
  have hlen : a < (List.range n).reverse.length := by simp [h]
  rw [List.getD_eq_getElem _ _ hlen, List.getElem_reverse]
  rw [List.getElem_range]
  simp

/-- For ≤ 16 all-numeric keys, the pandas descending argsort indexer
is lexicographically stable: later-indexed positions have strictly
smaller keys, or tie and come later in the input. -/
theorem nargsortDesc_stable_small (keys : List (Option Int)) (h16 : keys.length ≤ 16)
    (hall : ∀ k ∈ keys, k.isSome) :
    (nargsortDesc keys).Pairwise (SD keys) := by
  have hfil : (List.range keys.length).filter
      (fun i => (keys.getD i none).isSome) = List.range keys.length := by
    rw [List.filter_eq_self]
    intro i hi
    have hlt := List.mem_range.mp hi
    rw [List.getD_eq_getElem _ _ hlt]
    exact hall _ (List.getElem_mem hlt)
  have hnan : (List.range keys.length).filter
      (fun i => !(keys.getD i none).isSome) = [] := by
    rw [List.filter_eq_nil_iff]
    intro i hi
    have hlt := List.mem_range.mp hi
    rw [List.getD_eq_getElem _ _ hlt]
    simp [hall _ (List.getElem_mem hlt)]
  simp only [nargsortDesc, hfil, hnan, List.append_nil]
  have hvlen : ((List.range keys.length).reverse.map
      (fun i => (keys.getD i none).getD 0)).length = keys.length := by
    simp
  rw [show introArgsort ((List.range keys.length).reverse.map
        (fun i => (keys.getD i none).getD 0))
      = insSortSeg ((List.range keys.length).reverse.map
          (fun i => (keys.getD i none).getD 0))
          (List.range keys.length) by
    rw [introArgsort_small _ (by rw [hvlen]; exact h16), hvlen]]
  rw [List.pairwise_reverse, List.pairwise_map]
  refine (insSortSeg_range_pairwise _ keys.length).imp_of_mem ?_
  intro a b ha hb hR
  have han : a < keys.length := mem_range_of_mem_insSortSeg _ _ ha
  have hbn : b < keys.length := mem_range_of_mem_insSortSeg _ _ hb
  have hoa : ((List.range keys.length).reverse).getD a 0 = keys.length - 1 - a :=
    range_reverse_getD _ _ han
  have hob : ((List.range keys.length).reverse).getD b 0 = keys.length - 1 - b :=
    range_reverse_getD _ _ hbn
  have hva : ((List.range keys.length).reverse.map
      (fun i => (keys.getD i none).getD 0)).getD a 0 = capN keys (keys.length - 1 - a) := by
    rw [List.getD_eq_getElem _ _
      (by simp only [List.length_map, List.length_reverse, List.length_range]; exact han)]
    rw [List.getElem_map, List.getElem_reverse, List.getElem_range]
    unfold capN
    simp [List.length_range]
  have hvb : ((List.range keys.length).reverse.map
      (fun i => (keys.getD i none).getD 0)).getD b 0 = capN keys (keys.length - 1 - b) := by
    rw [List.getD_eq_getElem _ _
      (by simp only [List.length_map, List.length_reverse, List.length_range]; exact hbn)]
    rw [List.getElem_map, List.getElem_reverse, List.getElem_range]
    unfold capN
    simp [List.length_range]
  rw [hoa, hob]
  rcases hR with hlt | ⟨heq, hab⟩
  · rw [hva, hvb] at hlt
    exact .inl hlt
  · rw [hva, hvb] at heq
    exact .inr ⟨heq.symm, by omega⟩

/-- C1 (corrected): for inputs of at most 16 records with numeric
market caps, the transform's row order is the stable descending order:
the cleaned rows equal the pandas indexer applied to the per-record
cleaned rows, the indexer is pairwise stable-descending on input
positions, and the rows' market caps are adjacent-nonincreasing.  (For
larger inputs the default numpy quicksort is unstable — see the
counterexample with 17 tied records.) -/
theorem transform_sorted_stable_small (s : S) (recs : List Rec) (p : DF × DF) (s' : S)
    (h16 : recs.length ≤ 16)
    (hcaps : ∀ r ∈ recs, (toKey ((recGet r "market_cap").getD .vnull)).isSome)
    (h : transformData s recs = (.ok p, s')) :
    p.2.cells = (nargsortDesc (capKeyOf recs)).map
        (fun i => (recs.map (fun r => cleanRowOf r (s.clock.tail.headD 0))).getD i []) ∧
      (nargsortDesc (capKeyOf recs)).Pairwise (SD (capKeyOf recs)) ∧
      (p.2.cells.map capCellN).Pairwise (fun a b => b ≤ a) := by
  have hall : ∀ k ∈ capKeyOf recs, k.isSome := by
    intro k hk
    rcases List.mem_map.mp hk with ⟨r, hr, hke⟩
    exact hke ▸ hcaps r hr
  have hlen : (capKeyOf recs).length = recs.length := by
    unfold capKeyOf
    rw [List.length_map]
  have hstable := nargsortDesc_stable_small (capKeyOf recs) (by omega) hall
  have hcells := sorted_cells_eq s recs p s' h
  refine ⟨hcells, hstable, ?_⟩
  have hmapeq : p.2.cells.map capCellN =
      (nargsortDesc (capKeyOf recs)).map (fun i => capN (capKeyOf recs) i) := by
    rw [hcells, List.map_map]
    apply List.map_congr_left
    intro i hi
    have hilt : i < recs.length := by
      have := mem_nargsortDesc_lt _ hi
      rw [hlen] at this
      exact this
    simp only [Function.comp]
    rw [List.getD_eq_getElem _ _ (by rw [List.length_map]; exact hilt), List.getElem_map]
    have hsome := hcaps recs[i] (List.getElem_mem hilt)
    have hcap : capN (capKeyOf recs) i
        = (toKey ((recGet recs[i] "market_cap").getD .vnull)).getD 0 := by
      unfold capN capKeyOf
      rw [List.getD_eq_getElem _ _ (by rw [List.length_map]; exact hilt), List.getElem_map]
    cases hk : toKey ((recGet recs[i] "market_cap").getD .vnull) with
    | none => rw [hk] at hsome; simp at hsome
    | some k =>
      have hcell : (recGet recs[i] "market_cap").getD .vnull = .vnum k := by
        cases hv : (recGet recs[i] "market_cap").getD .vnull <;>
          rw [hv] at hk <;> simp [toKey] at hk
        rw [hk]
      rw [hcap, hk]
      simp only [cleanRowOf, capCellN, hcell]
      rfl
  rw [hmapeq, List.pairwise_map]
  exact hstable.imp (fun hsd => by
    rcases hsd with hlt | ⟨heq, _⟩
    · exact le_of_lt hlt
    · exact le_of_eq heq.symm)

/-- Witness for C1 (amended) at the §8 scenario (4 records, caps
90 / 5 / 500 / 1). -/
theorem transform_sorted_stable_small_wit :
    recs4.length ≤ 16 ∧
      transformData { clock := [0, 1], logs := [] } recs4 = (.ok (dfr4, dfc4), tr4.2) ∧
      ((dfr4, dfc4).2.cells = (nargsortDesc (capKeyOf recs4)).map
          (fun i => (recs4.map (fun r => cleanRowOf r 1)).getD i []) ∧
        (nargsortDesc (capKeyOf recs4)).Pairwise (SD (capKeyOf recs4)) ∧
        ((dfr4, dfc4).2.cells.map capCellN).Pairwise (fun a b => b ≤ a)) :=
  ⟨by decide, by decide,
    transform_sorted_stable_small { clock := [0, 1], logs := [] } recs4 (dfr4, dfc4) tr4.2
      (by decide) (by decide) (by decide)⟩

set_option maxRecDepth 20000 in
/-- Counterexample for C1 as stated: 17 records with identical market
caps.  Stability would force the output id order to equal the input id
order (all keys tie), but the default numpy quicksort — which the code
reaches because `sort_values` is called without a stable `kind` and
the input exceeds the 16-element insertion-sort cutoff — reorders
them. -/
theorem transform_sort_unstable_cex :
    (∀ k ∈ capKeyOf recs17, k = some 5) ∧
      tr17.1.toOption.isSome ∧
      ids17out ≠ recs17.map (fun r => (recGet r "id").getD .vnull) :=
  ⟨by decide, by decide, by decide⟩

/-! ### CSV round-trip -/

theorem digitsToNatRev_revDigitsAux :
    ∀ (f n : Nat), n ≤ f → digitsToNatRev (revDigitsAux f n) = n := by
  intro f
  induction f with
  | zero =>
    intro n h
    have hn : n = 0 := by omega
    subst hn
    rfl
  | succ f ih =>
    intro n h
    simp only [revDigitsAux]
    by_cases h10 : n < 10
    · rw [if_pos h10]
      simp [digitsToNatRev]
    · rw [if_neg h10]
      have hlt : n / 10 < n := Nat.div_lt_self (by omega) (by omega)
      have hle : n / 10 ≤ f := by omega
      simp only [digitsToNatRev, ih (n / 10) hle]
      omega

theorem revDigitsAux_lt10 :
    ∀ (f n : Nat), ∀ d ∈ revDigitsAux f n, d < 10 := by
  intro f
  induction f with
  | zero =>
    intro n d hd
    simp only [revDigitsAux] at hd
    rcases List.mem_singleton.mp hd with rfl
    omega
  | succ f ih =>
    intro n d hd
    simp only [revDigitsAux] at hd
    split at hd
    · rcases List.mem_singleton.mp hd with rfl
      omega
    · rcases List.mem_cons.mp hd with rfl | hd2
      · omega
      · exact ih (n / 10) d hd2

theorem revDigitsAux_ne_nil (f n : Nat) : revDigitsAux f n ≠ [] := by
  cases f with
  | zero => simp [revDigitsAux]
  | succ f =>
    simp only [revDigitsAux]
    split <;> simp

theorem valOfDigits_append_single (l : List Nat) (d : Nat) :
    valOfDigits (l ++ [d]) = 10 * valOfDigits l + d := by
  unfold valOfDigits
  rw [List.foldl_append]
  rfl

theorem valOfDigits_reverse (ds : List Nat) :
    valOfDigits ds.reverse = digitsToNatRev ds := by
  induction ds with
  | nil => rfl
  | cons d tail ih =>
    rw [List.reverse_cons, valOfDigits_append_single, ih]
    simp only [digitsToNatRev]
    omega

theorem charDigit_digitCh (d : Nat) (h : d < 10) : charDigit (digitCh d) = d := by
  interval_cases d <;> decide

theorem isDigitCh_digitCh (d : Nat) (h : d < 10) : isDigitCh (digitCh d) = true := by
  interval_cases d <;> decide

theorem digitCh_ne_dash (d : Nat) (h : d < 10) : digitCh d ≠ '-' := by
  interval_cases d <;> decide

theorem parseIntStr_mk_cons (c : Char) (cs : List Char) :
    parseIntStr (String.mk (c :: cs)) =
      if c = '-' then
        (if cs ≠ [] ∧ cs.all isDigitCh then
          some (-((valOfDigits (cs.map charDigit) : Nat) : Int)) else none)
      else
        (if (c :: cs).all isDigitCh then
          some (((valOfDigits ((c :: cs).map charDigit) : Nat) : Int)) else none) := rfl

theorem natStr_digits_val (n : Nat) :
    valOfDigits (((natToRevDigits n).reverse.map digitCh).map charDigit) = n := by
  rw [List.map_map]
  rw [List.map_congr_left (g := id) (fun d hd => by
    have hlt : d < 10 := revDigitsAux_lt10 n n d (by
      rw [List.mem_reverse] at hd
      exact hd)
    simp only [Function.comp]
    rw [charDigit_digitCh d hlt]
    rfl)]
  rw [List.map_id, valOfDigits_reverse]
  exact digitsToNatRev_revDigitsAux n n (le_refl n)

theorem natStr_all_digits (n : Nat) :
    ((natToRevDigits n).reverse.map digitCh).all isDigitCh = true := by
  rw [List.all_eq_true]
  intro c hc
  rcases List.mem_map.mp hc with ⟨d, hd, rfl⟩
  rw [List.mem_reverse] at hd
  exact isDigitCh_digitCh d (revDigitsAux_lt10 n n d hd)

theorem parseIntStr_natStr (n : Nat) : parseIntStr (natStr n) = some (n : Int) := by
  obtain ⟨d, ds, hds⟩ : ∃ d ds, (natToRevDigits n).reverse.map digitCh = d :: ds := by
    cases hc : (natToRevDigits n).reverse.map digitCh with
    | nil =>
      exfalso
      exact revDigitsAux_ne_nil n n
        (List.reverse_eq_nil_iff.mp (List.map_eq_nil_iff.mp hc))
    | cons d ds => exact ⟨d, ds, rfl⟩
  have hdd : ∃ e, e < 10 ∧ d = digitCh e := by
    have hd : d ∈ (natToRevDigits n).reverse.map digitCh := by
      rw [hds]; exact List.mem_cons_self _ _
    rcases List.mem_map.mp hd with ⟨e, he, hev⟩
    rw [List.mem_reverse] at he
    exact ⟨e, revDigitsAux_lt10 n n e he, hev.symm⟩
  unfold natStr
  rw [hds, parseIntStr_mk_cons]
  rw [if_neg (by
    rcases hdd with ⟨e, he, rfl⟩
    exact digitCh_ne_dash e he)]
  rw [if_pos (by rw [← hds]; exact natStr_all_digits n)]
  rw [show (d :: ds) = (natToRevDigits n).reverse.map digitCh from hds.symm]
  rw [natStr_digits_val]

theorem natStr_data_ne_nil (n : Nat) : (natStr n).data ≠ [] := by
  intro hdata
  have hdata' : (natToRevDigits n).reverse.map digitCh = [] := hdata
  exact revDigitsAux_ne_nil n n
    (List.reverse_eq_nil_iff.mp (List.map_eq_nil_iff.mp hdata'))

theorem parseIntStr_renderInt (n : Int) : parseIntStr (renderInt n) = some n := by
  unfold renderInt
  by_cases hneg : n < 0
  · rw [if_pos hneg]
    rw [parseIntStr_mk_cons]
    rw [if_pos rfl]
    rw [if_pos ⟨natStr_data_ne_nil n.natAbs, natStr_all_digits n.natAbs⟩]
    rw [show ((natStr n.natAbs).data.map charDigit)
        = (((natToRevDigits n.natAbs).reverse.map digitCh).map charDigit) from rfl]
    rw [natStr_digits_val]
    congr 1
    omega
  · rw [if_neg hneg]
    rw [parseIntStr_natStr]
    congr 1
    omega

theorem naTokens_no_int : ∀ tok ∈ naTokens, parseIntStr tok = none := by decide

theorem naTokens_not_renderInt (n : Int) : naTokens.contains (renderInt n) = false := by
  cases h : naTokens.contains (renderInt n) with
  | false => rfl
  | true =>
    exfalso
    have hmem : renderInt n ∈ naTokens := List.elem_iff.mp (by simpa using h)
    have := naTokens_no_int _ hmem
    rw [parseIntStr_renderInt] at this
    cases this

theorem parseIntStr_fmtDT (t : Int) : parseIntStr (fmtDT t) = none := by
  rw [show fmtDT t = String.mk ('d' :: ('t' :: ':' :: (renderInt t).data)) from rfl]
  rw [parseIntStr_mk_cons]
  rw [if_neg (by decide)]
  rw [if_neg (by simp [isDigitCh])]

theorem naTokens_not_fmtDT (t : Int) : naTokens.contains (fmtDT t) = false := by
  cases h : naTokens.contains (fmtDT t) with
  | false => rfl
  | true =>
    exfalso
    have hmem : fmtDT t ∈ naTokens := List.elem_iff.mp (by simpa using h)
    have hhead : ∀ tok ∈ naTokens, tok.data.take 1 ≠ ['d'] := by decide
    exact hhead _ hmem rfl

theorem parseCell_renderCell (v : Value) (h : safeCellB v = true) :
    parseCell (renderCell v) = canonCell v := by
  cases v with
  | vnull => rfl
  | vstr s =>
    unfold safeCellB at h
    rw [Bool.and_eq_true] at h
    rcases h with ⟨h1, h2⟩
    unfold parseCell renderCell canonCell
    rw [if_neg (by
      intro hc
      rw [Bool.not_eq_true'] at h1
      rw [h1] at hc
      cases hc)]
    rw [Option.isNone_iff_eq_none.mp h2]
  | vnum n =>
    unfold parseCell renderCell canonCell
    rw [if_neg (by
      intro hc
      rw [naTokens_not_renderInt n] at hc
      cases hc)]
    rw [parseIntStr_renderInt]
  | vtime s =>
    unfold safeCellB at h
    rw [Bool.and_eq_true] at h
    rcases h with ⟨h1, h2⟩
    unfold parseCell renderCell canonCell
    rw [if_neg (by
      intro hc
      rw [Bool.not_eq_true'] at h1
      rw [h1] at hc
      cases hc)]
    rw [Option.isNone_iff_eq_none.mp h2]
  | vstamp t =>
    unfold parseCell renderCell canonCell
    rw [if_neg (by
      intro hc
      rw [naTokens_not_fmtDT t] at hc
      cases hc)]
    rw [parseIntStr_fmtDT]

theorem csvParse_csvRender (df : DF)
    (h : ∀ row ∈ df.cells, ∀ v ∈ row, safeCellB v = true) :
    csvParse (csvRender df) = canonDF df := by
  unfold csvParse csvRender canonDF
  simp only [List.map_map]
  refine congrArg _ ?_
  apply List.map_congr_left
  intro row hrow
  simp only [Function.comp, List.map_map]
  apply List.map_congr_left
  intro v hv
  exact parseCell_renderCell v (h row hrow v hv)

/-- C9 (corrected): the CSV artifact written by export carries exactly
the cleaned table (header row = column names, one rendered row per
ReportRow, no index column), and re-parsing it reproduces the
in-memory collection up to canonical timestamp rendering — provided no
string cell is a `read_csv` missing-value token or numeric literal
(such cells change type on re-parse; see the counterexample). -/
theorem csv_roundtrip (w : World) (dfr dfc : DF) (s : S)
    (hpdf : w.pdfFail = none)
    (hsafe : ∀ row ∈ dfc.cells, ∀ v ∈ row, safeCellB v = true) :
    ((exportReports w dfr dfc s).2.2.map Prod.snd).head? = some (.csvC (csvRender dfc)) ∧
      (csvRender dfc).head? = some dfc.cols ∧
      csvParse (csvRender dfc) = canonDF dfc := by
  refine ⟨?_, rfl, csvParse_csvRender dfc hsafe⟩
  simp [exportReports, hpdf, logMsg, now]

/-- Witness for C9 (amended) at the §8 scenario's cleaned table. -/
theorem csv_roundtrip_wit :
    w0.pdfFail = none ∧
      (∀ row ∈ dfc4.cells, ∀ v ∈ row, safeCellB v = true) ∧
      (((exportReports w0 dfr4 dfc4 { clock := [4], logs := [] }).2.2.map Prod.snd).head? =
          some (.csvC (csvRender dfc4)) ∧
        (csvRender dfc4).head? = some dfc4.cols ∧
        csvParse (csvRender dfc4) = canonDF dfc4) :=
  ⟨rfl, by decide,
    csv_roundtrip w0 dfr4 dfc4 { clock := [4], logs := [] } rfl (by decide)⟩

/-- Counterexample for C9 as stated: a ReportRow collection whose
symbol cell is the string `"NA"` — a plausible upper-cased ticker —
re-parses as NaN, so the re-parsed table is not value-equal to the
in-memory collection. -/
theorem csv_roundtrip_cex : csvParse (csvRender dfNA) ≠ canonDF dfNA := by decide

/-- Witness for C10 at a response whose second record misses most
fields. -/
theorem transform_partial_nulls_wit :
    (∀ c ∈ requiredCols, ∃ r ∈ recsPartial, (recGet r c).isSome) ∧
      ∃ dfc s', transformData { clock := [0, 1], logs := [] } recsPartial =
          (.ok (dfOfRecords recsPartial, dfc), s') ∧
        dfc.cells.length = recsPartial.length ∧
        (∀ row ∈ dfc.cells, ∃ r ∈ recsPartial, row = cleanRowOf r 1) ∧
        (∀ r ∈ recsPartial, ∀ j, j < 9 → recGet r (requiredCols.getD j "") = none →
          (cleanRowOf r 1).getD j .vnull = .vnull) ∧
        (∀ w s2, w.pdfFail = none →
          (exportReports w (dfOfRecords recsPartial) dfc s2).1 = .ok ()) :=
  ⟨by decide, transform_partial_nulls { clock := [0, 1], logs := [] } recsPartial (by decide)⟩

end ADA


